import Mathlib

/-!
Verification of the sync orchestration core of `actual-auto-sync`
(`src/utils.ts`, here called the orchestrator, plus the cron `onTick`
boundary). The TypeScript code is shallowly embedded as functions in a
trace monad `M`: every external call (Actual API, filesystem) appends an
`Event` to the trace, and its outcome (resolve/reject) is chosen by a
`World` oracle indexed by how many calls of that kind happened before.
Promises that reject are modelled by `Except.error ()`; `try/catch` is
`mTry`; `throw` is `mThrow`.
-/

namespace ActualAutoSync

/-- Fields of a budget directory's `metadata.json`; either field may be
absent from the JSON (`none` models JS `undefined`). -/
structure LocalBudgetMetadata where
  groupId : Option String
  id : Option String
deriving DecidableEq

/-- One `readdir(..., { withFileTypes: true })` entry: its name, whether it
is a directory, and the outcome of reading and parsing its
`metadata.json` (`none` = the read or the JSON parse fails). -/
structure DirEnt where
  name : String
  isDir : Bool
  metadata : Option LocalBudgetMetadata
deriving DecidableEq

/-- One account row as returned by `internal.db.getAccounts()`:
`balance` is `some v` exactly when `balance_current` is a number
(JS `typeof === 'number'`), `none` when it is `null` or absent. -/
structure AccountRow where
  id : String
  balance : Option Int
deriving DecidableEq

/-- Observable events of one service run, in call order. `logResetSession`,
`logNoCacheFound` and `emergencyShutdown` model the corresponding logger
lines, which are the only observable trace of those branches. -/
inductive Event where
  | download (budgetId : String) (password : Option String)
  | bankSync
  | push
  | getAccounts
  | updateAccount (accountId : String) (balance : Option Int)
  | apiInit
  | apiShutdown
  | mkdirData
  | accessCheck
  | readdirData
  | readMetadata (dirName : String)
  | rmDir (dirName : String) (removed : Bool)
  | formatCron
  | logResetSession (budgetId : String)
  | logNoCacheFound (budgetId : String)
  | emergencyShutdown
deriving DecidableEq

abbrev Trace := List Event

/-- Oracle for the behaviour of all external calls: the `n`-th call of a
kind (0-based, counted over the whole trace) succeeds or fails as the
oracle says; value-returning calls also get their value from it. -/
structure World where
  downloadOk : Nat → Bool
  bankSyncOk : Nat → Bool
  pushOk : Nat → Bool
  initOk : Nat → Bool
  shutdownOk : Nat → Bool
  mkdirOk : Nat → Bool
  accessOk : Nat → Bool
  cronOk : Nat → Bool
  getAccountsRes : Nat → Option (List AccountRow)
  updateOk : Nat → Bool
  readdirRes : Nat → Option (List DirEnt)
  rmOk : Nat → Bool

/-- Configuration from the environment: `ACTUAL_BUDGET_SYNC_IDS` and the
positionally matched `ENCRYPTION_PASSWORDS`. -/
structure Config where
  syncIds : List String
  passwords : List String

/-- Computation that may reject, threading the event trace. -/
def M (α : Type) : Type := Trace → Except Unit α × Trace

def mPure {α : Type} (a : α) : M α := fun st => (Except.ok a, st)

def mThrow {α : Type} : M α := fun st => (Except.error (), st)

def mBind {α β : Type} (x : M α) (f : α → M β) : M β := fun st =>
  match x st with
  | (Except.ok a, st1) => f a st1
  | (Except.error e, st1) => (Except.error e, st1)

/-- `try x catch h` (the JS handlers here never inspect the error value). -/
def mTry {α : Type} (x : M α) (h : M α) : M α := fun st =>
  match x st with
  | (Except.ok a, st1) => (Except.ok a, st1)
  | (Except.error _, st1) => h st1

/-- Emit one event; succeed iff `okf` says so at the pre-call trace. -/
def emitOp (e : Event) (okf : Trace → Bool) : M Unit := fun st =>
  ((if okf st then Except.ok () else Except.error ()), st ++ [e])

/-- Count events satisfying `p`. -/
def countE (p : Event → Bool) (tr : Trace) : Nat := tr.countP p

def Event.isDownload : Event → Bool
  | .download _ _ => true
  | _ => false

def Event.isDownloadOf (b : String) : Event → Bool
  | .download b' _ => b' == b
  | _ => false

def Event.isBankSync : Event → Bool
  | .bankSync => true
  | _ => false

def Event.isPush : Event → Bool
  | .push => true
  | _ => false

def Event.isGetAccounts : Event → Bool
  | .getAccounts => true
  | _ => false

def Event.isUpdate : Event → Bool
  | .updateAccount _ _ => true
  | _ => false

def Event.isInit : Event → Bool
  | .apiInit => true
  | _ => false

def Event.isShutdown : Event → Bool
  | .apiShutdown => true
  | _ => false

def Event.isMkdir : Event → Bool
  | .mkdirData => true
  | _ => false

def Event.isAccess : Event → Bool
  | .accessCheck => true
  | _ => false

def Event.isReaddir : Event → Bool
  | .readdirData => true
  | _ => false

def Event.isCron : Event → Bool
  | .formatCron => true
  | _ => false

def Event.isRm : Event → Bool
  | .rmDir _ _ => true
  | _ => false

def Event.isResetLogOf (b : String) : Event → Bool
  | .logResetSession b' => b' == b
  | _ => false

def opDownload (w : World) (b : String) (p : Option String) : M Unit :=
  emitOp (.download b p) (fun st => w.downloadOk (countE Event.isDownload st))

def opBankSync (w : World) : M Unit :=
  emitOp .bankSync (fun st => w.bankSyncOk (countE Event.isBankSync st))

def opPush (w : World) : M Unit :=
  emitOp .push (fun st => w.pushOk (countE Event.isPush st))

def opInit (w : World) : M Unit :=
  emitOp .apiInit (fun st => w.initOk (countE Event.isInit st))

def opShutdown (w : World) : M Unit :=
  emitOp .apiShutdown (fun st => w.shutdownOk (countE Event.isShutdown st))

def opMkdir (w : World) : M Unit :=
  emitOp .mkdirData (fun st => w.mkdirOk (countE Event.isMkdir st))

def opAccess (w : World) : M Unit :=
  emitOp .accessCheck (fun st => w.accessOk (countE Event.isAccess st))

def opFormatCron (w : World) : M Unit :=
  emitOp .formatCron (fun st => w.cronOk (countE Event.isCron st))

def opUpdateAccount (w : World) (accountId : String) (bal : Option Int) : M Unit :=
  emitOp (.updateAccount accountId bal) (fun st => w.updateOk (countE Event.isUpdate st))

/-- `internal.db.getAccounts()`: rejects when the oracle gives no rows. -/
def opGetAccounts (w : World) : M (List AccountRow) := fun st =>
  let r := w.getAccountsRes (countE Event.isGetAccounts st)
  let st1 := st ++ [Event.getAccounts]
  match r with
  | some accs => (Except.ok accs, st1)
  | none => (Except.error (), st1)

/-- `readdir(ACTUAL_DATA_DIR, { withFileTypes: true })`. -/
def opReaddir (w : World) : M (List DirEnt) := fun st =>
  let r := w.readdirRes (countE Event.isReaddir st)
  let st1 := st ++ [Event.readdirData]
  match r with
  | some dirs => (Except.ok dirs, st1)
  | none => (Except.error (), st1)

/-- Read and parse `<dir>/metadata.json` (rejects when the entry's
metadata is unreadable). -/
def opReadMetadata (d : DirEnt) : M LocalBudgetMetadata := fun st =>
  let st1 := st ++ [Event.readMetadata d.name]
  match d.metadata with
  | some m => (Except.ok m, st1)
  | none => (Except.error (), st1)

/-- `rm(path, { recursive: true, force: true })`: even with `force` the
call can reject (permissions, I/O); the event records the outcome, and a
rejecting call is modelled as removing nothing. -/
def opRm (w : World) (name : String) : M Unit := fun st =>
  let ok := w.rmOk (countE Event.isRm st)
  ((if ok then Except.ok () else Except.error ()), st ++ [Event.rmDir name ok])

def opLogResetSession (b : String) : M Unit :=
  emitOp (.logResetSession b) (fun _ => true)

def opLogNoCacheFound (b : String) : M Unit :=
  emitOp (.logNoCacheFound b) (fun _ => true)

/-! ## Translation of `src/utils.ts` -/

def MAX_BUDGET_SYNC_ATTEMPTS : Nat := 2

/-- utils.ts `getAccountsForBalanceSync`: returns the rows and a
`readFailed` flag; a read error is caught and flagged, never rethrown. -/
def getAccountsForBalanceSync (w : World) : M (List AccountRow × Bool) :=
  mTry
    (mBind (opGetAccounts w) (fun accs => mPure (accs, false)))
    (mPure ([], true))

/-- utils.ts `syncAccountBalanceToCRDT`: one CRDT row update; an update
error is caught and reported as `false`. -/
def syncAccountBalanceToCRDT (w : World) (a : AccountRow) : M Bool :=
  mTry
    (mBind (opUpdateAccount w a.id a.balance) (fun _ => mPure true))
    (mPure false)

/-- The `for (const account of accounts)` loop of
`syncAccountBalancesToCRDT`, threading `hasSyncErrors`. -/
def syncBalancesLoop (w : World) : List AccountRow → Bool → M Bool
  | [], hasErrors => mPure hasErrors
  | a :: rest, hasErrors =>
    if a.balance.isSome then
      mBind (syncAccountBalanceToCRDT w a) (fun ok =>
        syncBalancesLoop w rest (hasErrors || !ok))
    else
      syncBalancesLoop w rest hasErrors

/-- utils.ts `syncAccountBalancesToCRDT`. -/
def syncAccountBalancesToCRDT (w : World) : M Bool :=
  mBind (getAccountsForBalanceSync w) (fun ar =>
    if ar.2 then
      mPure false
    else
      mBind (syncBalancesLoop w ar.1 false) (fun hasErrors =>
        mPure (!hasErrors)))

/-- utils.ts `syncBankAccounts`: `runBankSync` then the CRDT balance
repair (whose flag is only logged). -/
def syncBankAccounts (w : World) : M Unit :=
  mBind (opBankSync w) (fun _ =>
    mBind (syncAccountBalancesToCRDT w) (fun _ => mPure ()))

/-- utils.ts `syncBudgetToServer`. -/
def syncBudgetToServer (w : World) : M Unit := opPush w

/-- utils.ts `syncAllAccounts`. -/
def syncAllAccounts (w : World) : M Unit :=
  mBind (syncBankAccounts w) (fun _ => syncBudgetToServer w)

/-- utils.ts `testDataDirPermission`: the catch logs and rethrows, so it
is the bare `access` call. -/
def testDataDirPermission (w : World) : M Unit := opAccess w

/-- utils.ts `createDataDirAndInitApi`: mkdir, permission check, `init`;
the surrounding catch logs and rethrows. -/
def createDataDirAndInitApi (w : World) : M Unit :=
  mBind (opMkdir w) (fun _ =>
    mBind (testDataDirPermission w) (fun _ => opInit w))

/-- utils.ts `maybeRemoveLocalBudgetCacheBySyncId`: skip non-directories;
read metadata, compare `groupId` to the sync id, delete on match; any
error in the try body yields `false`. -/
def maybeRemoveLocalBudgetCacheBySyncId (w : World) (syncId : String) (d : DirEnt) :
    M Bool :=
  if !d.isDir then
    mPure false
  else
    mTry
      (mBind (opReadMetadata d) (fun m =>
        if m.groupId ≠ some syncId then
          mPure false
        else
          mBind (opRm w d.name) (fun _ => mPure true)))
      (mPure false)

/-- The `for (const directory of directories)` loop of
`removeLocalBudgetCacheBySyncId`: stop at the first removal. -/
def removalScan (w : World) (syncId : String) : List DirEnt → M Bool
  | [] => mPure false
  | d :: rest =>
    mBind (maybeRemoveLocalBudgetCacheBySyncId w syncId d) (fun removed =>
      if removed then mPure true else removalScan w syncId rest)

/-- utils.ts `removeLocalBudgetCacheBySyncId`: scan the data directory,
warn when nothing matched; all errors are caught and only logged. -/
def removeLocalBudgetCacheBySyncId (w : World) (syncId : String) : M Unit :=
  mTry
    (mBind (opReaddir w) (fun dirs =>
      mBind (removalScan w syncId dirs) (fun removed =>
        if removed then mPure () else opLogNoCacheFound syncId)))
    (mPure ())

/-- utils.ts `resetApiSessionForRetry`: log, shutdown (error swallowed),
cache eviction, re-init (errors of the last step propagate). -/
def resetApiSessionForRetry (w : World) (syncId : String) : M Unit :=
  mBind (opLogResetSession syncId) (fun _ =>
    mBind (mTry (opShutdown w) (mPure ())) (fun _ =>
      mBind (removeLocalBudgetCacheBySyncId w syncId) (fun _ =>
        createDataDirAndInitApi w)))

/-- `env.ENCRYPTION_PASSWORDS[index]` under `if (password)`: the argument
is passed only when the slot exists and is non-empty. -/
def passwordAt (cfg : Config) (index : Nat) : Option String :=
  let p := cfg.passwords.getD index ""
  if p = "" then none else some p

/-- The attempt loop of `downloadAndSyncBudget`, by remaining attempts
(`Nat.succ n` ↔ attempts `MAX - n .. MAX` still to run): on failure at
the last attempt rethrow, otherwise reset the session and retry. -/
def syncAttemptLoop (w : World) (budgetId : String) (password : Option String) :
    Nat → M Unit
  | 0 => mPure ()
  | Nat.succ n =>
    mTry
      (mBind (opDownload w budgetId password) (fun _ => syncAllAccounts w))
      (match n with
       | 0 => mThrow
       | Nat.succ m =>
         mBind (resetApiSessionForRetry w budgetId) (fun _ =>
           syncAttemptLoop w budgetId password (Nat.succ m)))

/-- utils.ts `downloadAndSyncBudget`. -/
def downloadAndSyncBudget (w : World) (cfg : Config) (budgetId : String)
    (index : Nat) : M Unit :=
  syncAttemptLoop w budgetId (passwordAt cfg index) MAX_BUDGET_SYNC_ATTEMPTS

/-- The `for (const [index, budgetId] of ...entries())` loop of
`downloadConfiguredBudgets`, accumulating `failedBudgets`. -/
def budgetsLoop (w : World) (cfg : Config) :
    List (Nat × String) → List String → M (List String)
  | [], failed => mPure failed
  | (index, budgetId) :: rest, failed =>
    mBind
      (mTry
        (mBind (downloadAndSyncBudget w cfg budgetId index) (fun _ => mPure failed))
        (mPure (failed ++ [budgetId])))
      (fun failed1 => budgetsLoop w cfg rest failed1)

/-- `downloadConfiguredBudgets` up to the aggregation check: the final
`failedBudgets` list. -/
def downloadConfiguredBudgetsResult (w : World) (cfg : Config) : M (List String) :=
  budgetsLoop w cfg cfg.syncIds.enum []

/-- utils.ts `downloadConfiguredBudgets`: throw the aggregated error
exactly when some budget exhausted its retries. -/
def downloadConfiguredBudgets (w : World) (cfg : Config) : M Unit :=
  mBind (downloadConfiguredBudgetsResult w cfg) (fun failed =>
    if failed.isEmpty then mPure () else mThrow)

/-- utils.ts `runSyncCycle`: setup, cron formatting, budget pass; every
error is caught and only logged. -/
def runSyncCycle (w : World) (cfg : Config) : M Unit :=
  mTry
    (mBind (createDataDirAndInitApi w) (fun _ =>
      mBind (opFormatCron w) (fun _ => downloadConfiguredBudgets w cfg)))
    (mPure ())

/-- utils.ts `sync`: the cycle, then a guaranteed shutdown whose own
error is caught; the finally re-raises the body's outcome. -/
def sync (w : World) (cfg : Config) : M Unit := fun st =>
  let r1 := runSyncCycle w cfg st
  let r2 := mTry (opShutdown w) (mPure ()) r1.2
  (r1.1, r2.2)

/-- cron.ts `onTick`: run `sync()`; if it rejects, log and perform an
emergency shutdown (modelled by the `emergencyShutdown` marker followed
by the `shutdown()` call). -/
def onTick (w : World) (cfg : Config) : Trace :=
  match sync w cfg [] with
  | (Except.ok _, tr) => tr
  | (Except.error _, tr) =>
    (mBind (emitOp .emergencyShutdown (fun _ => true)) (fun _ => opShutdown w)
      (tr)).2

/-! ## Pure model of `getSyncIdMaps` (utils.ts lines 266-289) -/

/-- utils.ts `listSubDirectories`, on an already-listed directory. -/
def listSubDirectories (dirs : List DirEnt) : List DirEnt :=
  dirs.filter (fun d => d.isDir)

/-- JS object assignment `m[k] = v` on a record represented as an
insertion-ordered association list. -/
def recordSet (m : List (String × Option String)) (k : String) (v : Option String) :
    List (String × Option String) :=
  if m.any (fun kv => kv.1 = k) then
    m.map (fun kv => if kv.1 = k then (k, v) else kv)
  else
    m ++ [(k, v)]

/-- The `Promise.all` over the per-subdirectory metadata reads: the batch
resolves with every metadata value, or rejects as soon as any single read
or parse fails. -/
def readAllMetadata : List DirEnt → Option (List LocalBudgetMetadata)
  | [] => some []
  | d :: rest =>
    match d.metadata, readAllMetadata rest with
    | some m, some ms => some (m :: ms)
    | _, _ => none

/-- utils.ts `getSyncIdMaps`: read every subdirectory's metadata under
`Promise.all` — one unreadable metadata file rejects the whole batch, and
the catch logs and rethrows. A missing `groupId` indexes the record at
the JS key `"undefined"`. -/
def getSyncIdMaps (dirs : List DirEnt) : Except Unit (List (String × Option String)) :=
  match readAllMetadata (listSubDirectories dirs) with
  | none => Except.error ()
  | some metas =>
    Except.ok (metas.foldl (fun m md => recordSet m (md.groupId.getD "undefined") md.id) [])

/-! ## Specification-side definitions -/

/-- `EmitsOnly P x`: `x` only ever appends events satisfying `P` to the
trace, whatever the incoming trace. -/
def EmitsOnly {α : Type} (P : Event → Prop) (x : M α) : Prop :=
  ∀ st, ∃ d, (x st).2 = st ++ d ∧ ∀ e ∈ d, P e

/-- Not a download of any budget and not a retry-reset log line of any
budget. -/
def NeutralEvent (e : Event) : Prop :=
  Event.isDownload e = false ∧ ∀ b', Event.isResetLogOf b' e = false

/-- Event attributable to the processing of budget `b` whose configured
password slot yields `pw`: any download mentions exactly `b` and `pw`, and
any retry-reset log line mentions exactly `b`. -/
def BudgetScoped (b : String) (pw : Option String) (e : Event) : Prop :=
  (∀ b' p', e = Event.download b' p' → b' = b ∧ p' = pw)
  ∧ (∀ b', e = Event.logResetSession b' → b' = b)

/-- The candidate test of the retry-path cache scan: a directory whose
metadata is readable and whose `groupId` equals the failing sync id. -/
def cacheMatch (syncId : String) (d : DirEnt) : Bool :=
  d.isDir && (match d.metadata with
              | some m => m.groupId == some syncId
              | none => false)

/-- Names of the directories actually deleted in a trace fragment: the
targets of the `rm` calls that resolved. -/
def rmNames (tr : Trace) : List String :=
  tr.filterMap (fun e => match e with
    | Event.rmDir n true => some n
    | _ => none)

/-- The CRDT updates reconciliation must issue for a fixed account list —
one per account with a present numeric balance, carrying exactly the read
value, in list order. -/
def updatesOf (accs : List AccountRow) : List Event :=
  (accs.filter (fun a => a.balance.isSome)).map
    (fun a => Event.updateAccount a.id a.balance)

/-! ## Concrete scenario worlds (for end-to-end runs and witnesses) -/

/-- World where every external call succeeds, the store has no accounts,
and the data directory is empty. -/
def allOkWorld : World where
  downloadOk := fun _ => true
  bankSyncOk := fun _ => true
  pushOk := fun _ => true
  initOk := fun _ => true
  shutdownOk := fun _ => true
  mkdirOk := fun _ => true
  accessOk := fun _ => true
  cronOk := fun _ => true
  getAccountsRes := fun _ => some []
  updateOk := fun _ => true
  readdirRes := fun _ => some []
  rmOk := fun _ => true

/-- C2 scenario: the very first download call rejects, every later one
resolves. -/
def wRetryOnce : World := { allOkWorld with downloadOk := fun n => n != 0 }

/-- Every download rejects. -/
def wDownloadAlwaysFails : World := { allOkWorld with downloadOk := fun _ => false }

/-- The data-directory permission check rejects. -/
def wNoPermission : World := { allOkWorld with accessOk := fun _ => false }

/-- Every download rejects and so does every session `init`. -/
def wInitFailsOnReset : World :=
  { allOkWorld with downloadOk := fun _ => false, initOk := fun _ => false }

/-- Two accounts, one with a numeric balance and one with a null balance. -/
def demoAccounts : List AccountRow := [⟨"a1", some 5⟩, ⟨"a2", none⟩]

/-- World whose account store holds `demoAccounts`. -/
def wWithAccounts : World := { allOkWorld with getAccountsRes := fun _ => some demoAccounts }

/-- The C2 configuration: two budgets, no encryption passwords. -/
def cfgTwoBudgets : Config := ⟨["b1", "b2"], []⟩

/-- A single-budget configuration. -/
def cfgOneBudget : Config := ⟨["b1"], []⟩

/-- A single budget with one encryption password. -/
def cfgWithPassword : Config := ⟨["b1"], ["p1"]⟩

/-- A cached-budget directory whose metadata matches sync id `s1`. -/
def dirMatching : DirEnt := ⟨"dirA", true, some ⟨some "s1", some "localA"⟩⟩

/-- A directory whose metadata names another budget. -/
def dirOther : DirEnt := ⟨"dirB", true, some ⟨some "s2", some "localB"⟩⟩

/-- A directory whose metadata cannot be read or parsed. -/
def dirBroken : DirEnt := ⟨"dirC", true, none⟩

/-- A directory whose metadata is readable. -/
def dirReadable : DirEnt := ⟨"dirD", true, some ⟨some "s9", some "localD"⟩⟩

/-- World whose data directory holds an unrelated budget, a corrupt
entry, and the budget cached for sync id `s1`, in scan order. -/
def wThreeDirs : World :=
  { allOkWorld with readdirRes := fun _ => some [dirOther, dirBroken, dirMatching] }

/-- A second cached directory whose metadata also names sync id `s1`. -/
def dirMatchingLater : DirEnt := ⟨"dirE", true, some ⟨some "s1", some "localE"⟩⟩

/-- World whose data directory holds two directories matching sync id
`s1` and whose very first `rm` call rejects. -/
def wTwoMatching : World :=
  { allOkWorld with
      readdirRes := fun _ => some [dirMatching, dirMatchingLater],
      rmOk := fun n => n != 0 }

/-! ## Trace-extension infrastructure -/

theorem emitsOnly_mPure {α : Type} (P : Event → Prop) (a : α) :
    EmitsOnly P (mPure a) := by
  intro st
  exact ⟨[], by simp [mPure], by simp⟩

theorem emitsOnly_mThrow {α : Type} (P : Event → Prop) :
    EmitsOnly P (mThrow (α := α)) := by
  intro st
  exact ⟨[], by simp [mThrow], by simp⟩

theorem emitsOnly_mBind {α β : Type} (P : Event → Prop) (x : M α) (f : α → M β)
    (hx : EmitsOnly P x) (hf : ∀ a, EmitsOnly P (f a)) :
    EmitsOnly P (mBind x f) := by
  intro st
  obtain ⟨d1, h1, h1P⟩ := hx st
  rcases hxst : x st with ⟨r, st1⟩
  rw [hxst] at h1
  simp only at h1
  cases r with
  | ok a =>
    obtain ⟨d2, h2, h2P⟩ := hf a st1
    refine ⟨d1 ++ d2, ?_, ?_⟩
    · simp only [mBind, hxst]
      rw [h2, h1, List.append_assoc]
    · intro e he
      rcases List.mem_append.mp he with h | h
      · exact h1P e h
      · exact h2P e h
  | error u =>
    refine ⟨d1, ?_, h1P⟩
    simp only [mBind, hxst]
    exact h1

theorem emitsOnly_mTry {α : Type} (P : Event → Prop) (x h : M α)
    (hx : EmitsOnly P x) (hh : EmitsOnly P h) :
    EmitsOnly P (mTry x h) := by
  intro st
  obtain ⟨d1, h1, h1P⟩ := hx st
  rcases hxst : x st with ⟨r, st1⟩
  rw [hxst] at h1
  simp only at h1
  cases r with
  | ok a =>
    refine ⟨d1, ?_, h1P⟩
    simp only [mTry, hxst]
    exact h1
  | error u =>
    obtain ⟨d2, h2, h2P⟩ := hh st1
    refine ⟨d1 ++ d2, ?_, ?_⟩
    · simp only [mTry, hxst]
      rw [h2, h1, List.append_assoc]
    · intro e he
      rcases List.mem_append.mp he with hm | hm
      · exact h1P e hm
      · exact h2P e hm

theorem emitsOnly_emitOp (P : Event → Prop) (e : Event) (okf : Trace → Bool)
    (hP : P e) : EmitsOnly P (emitOp e okf) := by
  intro st
  refine ⟨[e], ?_, ?_⟩
  · simp [emitOp]
  · intro e' he'
    simp at he'
    subst he'
    exact hP

theorem emitsOnly_opGetAccounts (P : Event → Prop) (w : World)
    (hP : P Event.getAccounts) : EmitsOnly P (opGetAccounts w) := by
  intro st
  refine ⟨[Event.getAccounts], ?_, ?_⟩
  · simp only [opGetAccounts]
    cases w.getAccountsRes (countE Event.isGetAccounts st) <;> simp
  · intro e' he'
    simp at he'
    subst he'
    exact hP

theorem emitsOnly_opReaddir (P : Event → Prop) (w : World)
    (hP : P Event.readdirData) : EmitsOnly P (opReaddir w) := by
  intro st
  refine ⟨[Event.readdirData], ?_, ?_⟩
  · simp only [opReaddir]
    cases w.readdirRes (countE Event.isReaddir st) <;> simp
  · intro e' he'
    simp at he'
    subst he'
    exact hP

theorem emitsOnly_opReadMetadata (P : Event → Prop) (d : DirEnt)
    (hP : P (Event.readMetadata d.name)) : EmitsOnly P (opReadMetadata d) := by
  intro st
  refine ⟨[Event.readMetadata d.name], ?_, ?_⟩
  · simp only [opReadMetadata]
    cases d.metadata <;> simp
  · intro e' he'
    simp at he'
    subst he'
    exact hP

theorem emitsOnly_opRm (P : Event → Prop) (w : World) (name : String)
    (hP : ∀ ok, P (Event.rmDir name ok)) : EmitsOnly P (opRm w name) := by
  intro st
  refine ⟨[Event.rmDir name (w.rmOk (countE Event.isRm st))], rfl, ?_⟩
  intro e' he'
  simp at he'
  subst he'
  exact hP _

theorem emitsOnly_getAccountsForBalanceSync (P : Event → Prop) (w : World)
    (hga : P Event.getAccounts) : EmitsOnly P (getAccountsForBalanceSync w) := by
  unfold getAccountsForBalanceSync
  exact emitsOnly_mTry P _ _
    (emitsOnly_mBind P _ _ (emitsOnly_opGetAccounts P w hga)
      (fun a => emitsOnly_mPure P _))
    (emitsOnly_mPure P _)

theorem emitsOnly_syncAccountBalanceToCRDT (P : Event → Prop) (w : World)
    (a : AccountRow) (hup : ∀ i v, P (Event.updateAccount i v)) :
    EmitsOnly P (syncAccountBalanceToCRDT w a) := by
  unfold syncAccountBalanceToCRDT
  exact emitsOnly_mTry P _ _
    (emitsOnly_mBind P _ _ (emitsOnly_emitOp P _ _ (hup a.id a.balance))
      (fun _ => emitsOnly_mPure P _))
    (emitsOnly_mPure P _)

theorem emitsOnly_syncBalancesLoop (P : Event → Prop) (w : World)
    (accs : List AccountRow) (acc : Bool)
    (hup : ∀ i v, P (Event.updateAccount i v)) :
    EmitsOnly P (syncBalancesLoop w accs acc) := by
  induction accs generalizing acc with
  | nil => exact emitsOnly_mPure P _
  | cons a rest ih =>
    unfold syncBalancesLoop
    by_cases hb : a.balance.isSome
    · simp only [hb, if_true]
      exact emitsOnly_mBind P _ _ (emitsOnly_syncAccountBalanceToCRDT P w a hup)
        (fun ok => ih _)
    · simp only [hb, if_false]
      exact ih _

theorem emitsOnly_syncAccountBalancesToCRDT (P : Event → Prop) (w : World)
    (hga : P Event.getAccounts) (hup : ∀ i v, P (Event.updateAccount i v)) :
    EmitsOnly P (syncAccountBalancesToCRDT w) := by
  unfold syncAccountBalancesToCRDT
  refine emitsOnly_mBind P _ _ (emitsOnly_getAccountsForBalanceSync P w hga) ?_
  intro ar
  by_cases h2 : ar.2
  · simp only [h2, if_true]
    exact emitsOnly_mPure P _
  · simp only [h2, if_false]
    exact emitsOnly_mBind P _ _ (emitsOnly_syncBalancesLoop P w ar.1 false hup)
      (fun _ => emitsOnly_mPure P _)

theorem emitsOnly_syncAllAccounts (P : Event → Prop) (w : World)
    (hbs : P Event.bankSync) (hga : P Event.getAccounts)
    (hup : ∀ i v, P (Event.updateAccount i v)) (hpu : P Event.push) :
    EmitsOnly P (syncAllAccounts w) := by
  unfold syncAllAccounts syncBankAccounts syncBudgetToServer
  exact emitsOnly_mBind P _ _
    (emitsOnly_mBind P _ _ (emitsOnly_emitOp P _ _ hbs)
      (fun _ => emitsOnly_mBind P _ _
        (emitsOnly_syncAccountBalancesToCRDT P w hga hup)
        (fun _ => emitsOnly_mPure P _)))
    (fun _ => emitsOnly_emitOp P _ _ hpu)

theorem emitsOnly_createDataDirAndInitApi (P : Event → Prop) (w : World)
    (hmk : P Event.mkdirData) (hac : P Event.accessCheck) (hin : P Event.apiInit) :
    EmitsOnly P (createDataDirAndInitApi w) := by
  unfold createDataDirAndInitApi testDataDirPermission
  exact emitsOnly_mBind P _ _ (emitsOnly_emitOp P _ _ hmk)
    (fun _ => emitsOnly_mBind P _ _ (emitsOnly_emitOp P _ _ hac)
      (fun _ => emitsOnly_emitOp P _ _ hin))

theorem emitsOnly_maybeRemoveLocalBudgetCacheBySyncId (P : Event → Prop)
    (w : World) (syncId : String) (d : DirEnt)
    (hrm : ∀ n, P (Event.readMetadata n)) (hrr : ∀ n ok, P (Event.rmDir n ok)) :
    EmitsOnly P (maybeRemoveLocalBudgetCacheBySyncId w syncId d) := by
  unfold maybeRemoveLocalBudgetCacheBySyncId
  by_cases hd : !d.isDir
  · simp only [hd, if_true]
    exact emitsOnly_mPure P _
  · simp only [hd, if_false]
    refine emitsOnly_mTry P _ _ ?_ (emitsOnly_mPure P _)
    refine emitsOnly_mBind P _ _ (emitsOnly_opReadMetadata P d (hrm d.name)) ?_
    intro m
    by_cases hg : m.groupId ≠ some syncId
    · rw [if_pos hg]
      exact emitsOnly_mPure P _
    · rw [if_neg hg]
      exact emitsOnly_mBind P _ _ (emitsOnly_opRm P w d.name (hrr d.name))
        (fun _ => emitsOnly_mPure P _)

theorem emitsOnly_removalScan (P : Event → Prop) (w : World) (syncId : String)
    (dirs : List DirEnt)
    (hrm : ∀ n, P (Event.readMetadata n)) (hrr : ∀ n ok, P (Event.rmDir n ok)) :
    EmitsOnly P (removalScan w syncId dirs) := by
  induction dirs with
  | nil => exact emitsOnly_mPure P _
  | cons d rest ih =>
    unfold removalScan
    refine emitsOnly_mBind P _ _
      (emitsOnly_maybeRemoveLocalBudgetCacheBySyncId P w syncId d hrm hrr) ?_
    intro removed
    cases removed
    · simpa using ih
    · simpa using emitsOnly_mPure P (α := Bool) true

theorem emitsOnly_removeLocalBudgetCacheBySyncId (P : Event → Prop) (w : World)
    (syncId : String) (hrd : P Event.readdirData)
    (hrm : ∀ n, P (Event.readMetadata n)) (hrr : ∀ n ok, P (Event.rmDir n ok))
    (hnc : P (Event.logNoCacheFound syncId)) :
    EmitsOnly P (removeLocalBudgetCacheBySyncId w syncId) := by
  unfold removeLocalBudgetCacheBySyncId
  refine emitsOnly_mTry P _ _ ?_ (emitsOnly_mPure P _)
  refine emitsOnly_mBind P _ _ (emitsOnly_opReaddir P w hrd) ?_
  intro dirs
  refine emitsOnly_mBind P _ _ (emitsOnly_removalScan P w syncId dirs hrm hrr) ?_
  intro removed
  cases removed
  · simpa using emitsOnly_emitOp P _ _ hnc
  · simpa using emitsOnly_mPure P (α := Unit) ()

theorem emitsOnly_resetApiSessionForRetry (P : Event → Prop) (w : World)
    (syncId : String) (hrl : P (Event.logResetSession syncId))
    (hsd : P Event.apiShutdown) (hrd : P Event.readdirData)
    (hrm : ∀ n, P (Event.readMetadata n)) (hrr : ∀ n ok, P (Event.rmDir n ok))
    (hnc : P (Event.logNoCacheFound syncId)) (hmk : P Event.mkdirData)
    (hac : P Event.accessCheck) (hin : P Event.apiInit) :
    EmitsOnly P (resetApiSessionForRetry w syncId) := by
  unfold resetApiSessionForRetry
  exact emitsOnly_mBind P _ _ (emitsOnly_emitOp P _ _ hrl)
    (fun _ => emitsOnly_mBind P _ _
      (emitsOnly_mTry P _ _ (emitsOnly_emitOp P _ _ hsd) (emitsOnly_mPure P _))
      (fun _ => emitsOnly_mBind P _ _
        (emitsOnly_removeLocalBudgetCacheBySyncId P w syncId hrd hrm hrr hnc)
        (fun _ => emitsOnly_createDataDirAndInitApi P w hmk hac hin)))

theorem emitsOnly_syncAttemptLoop (P : Event → Prop) (w : World) (b : String)
    (pw : Option String) (n : Nat) (hdl : P (Event.download b pw))
    (hbs : P Event.bankSync) (hga : P Event.getAccounts)
    (hup : ∀ i v, P (Event.updateAccount i v)) (hpu : P Event.push)
    (hrl : P (Event.logResetSession b)) (hsd : P Event.apiShutdown)
    (hrd : P Event.readdirData) (hrm : ∀ n', P (Event.readMetadata n'))
    (hrr : ∀ n' ok, P (Event.rmDir n' ok)) (hnc : P (Event.logNoCacheFound b))
    (hmk : P Event.mkdirData) (hac : P Event.accessCheck) (hin : P Event.apiInit) :
    EmitsOnly P (syncAttemptLoop w b pw n) := by
  induction n with
  | zero => exact emitsOnly_mPure P _
  | succ n ih =>
    unfold syncAttemptLoop
    refine emitsOnly_mTry P _ _
      (emitsOnly_mBind P _ _ (emitsOnly_emitOp P _ _ hdl)
        (fun _ => emitsOnly_syncAllAccounts P w hbs hga hup hpu)) ?_
    cases n with
    | zero => exact emitsOnly_mThrow P
    | succ m =>
      exact emitsOnly_mBind P _ _
        (emitsOnly_resetApiSessionForRetry P w b hrl hsd hrd hrm hrr hnc hmk hac hin)
        (fun _ => ih)

theorem emitsOnly_downloadAndSyncBudget (P : Event → Prop) (w : World)
    (cfg : Config) (b : String) (index : Nat)
    (hdl : P (Event.download b (passwordAt cfg index)))
    (hbs : P Event.bankSync) (hga : P Event.getAccounts)
    (hup : ∀ i v, P (Event.updateAccount i v)) (hpu : P Event.push)
    (hrl : P (Event.logResetSession b)) (hsd : P Event.apiShutdown)
    (hrd : P Event.readdirData) (hrm : ∀ n', P (Event.readMetadata n'))
    (hrr : ∀ n' ok, P (Event.rmDir n' ok)) (hnc : P (Event.logNoCacheFound b))
    (hmk : P Event.mkdirData) (hac : P Event.accessCheck) (hin : P Event.apiInit) :
    EmitsOnly P (downloadAndSyncBudget w cfg b index) :=
  emitsOnly_syncAttemptLoop P w b (passwordAt cfg index) MAX_BUDGET_SYNC_ATTEMPTS
    hdl hbs hga hup hpu hrl hsd hrd hrm hrr hnc hmk hac hin

theorem emitsOnly_budgetsLoop (P : Event → Prop) (w : World) (cfg : Config)
    (entries : List (Nat × String)) (failed : List String)
    (hent : ∀ pr ∈ entries, EmitsOnly P (downloadAndSyncBudget w cfg pr.2 pr.1)) :
    EmitsOnly P (budgetsLoop w cfg entries failed) := by
  induction entries generalizing failed with
  | nil => exact emitsOnly_mPure P _
  | cons pr rest ih =>
    unfold budgetsLoop
    rcases pr with ⟨index, budgetId⟩
    refine emitsOnly_mBind P _ _ ?_
      (fun failed1 => ih failed1 (fun q hq => hent q (List.mem_cons_of_mem _ hq)))
    exact emitsOnly_mTry P _ _
      (emitsOnly_mBind P _ _ (hent ⟨index, budgetId⟩ (by simp))
        (fun _ => emitsOnly_mPure P _))
      (emitsOnly_mPure P _)

/-! ## Counting and totality helpers -/

theorem countE_nil (p : Event → Bool) : countE p [] = 0 := rfl

theorem countE_append (p : Event → Bool) (l1 l2 : Trace) :
    countE p (l1 ++ l2) = countE p l1 + countE p l2 := by
  simp [countE, List.countP_append]

theorem countE_cons_pos (p : Event → Bool) (e : Event) (l : Trace)
    (h : p e = true) : countE p (e :: l) = countE p l + 1 := by
  simp [countE, List.countP_cons, h]

theorem countE_cons_neg (p : Event → Bool) (e : Event) (l : Trace)
    (h : p e = false) : countE p (e :: l) = countE p l := by
  simp [countE, List.countP_cons, h]

theorem countE_eq_zero_of (p : Event → Bool) (l : Trace)
    (h : ∀ e ∈ l, p e = false) : countE p l = 0 := by
  simp only [countE, List.countP_eq_zero]
  intro e he
  simp [h e he]

theorem emitOp_true_eq (e : Event) (st : Trace) :
    emitOp e (fun _ => true) st = (Except.ok (), st ++ [e]) := rfl

theorem mBind_eq_of_ok {α β : Type} (x : M α) (f : α → M β) (st st1 : Trace)
    (a : α) (h : x st = (Except.ok a, st1)) : mBind x f st = f a st1 := by
  simp [mBind, h]

theorem mBind_eq_of_error {α β : Type} (x : M α) (f : α → M β) (st st1 : Trace)
    (u : Unit) (h : x st = (Except.error u, st1)) :
    mBind x f st = (Except.error u, st1) := by
  simp [mBind, h]

theorem mTry_eq_of_ok {α : Type} (x hh : M α) (st st1 : Trace) (a : α)
    (h : x st = (Except.ok a, st1)) : mTry x hh st = (Except.ok a, st1) := by
  simp [mTry, h]

theorem mTry_eq_of_error {α : Type} (x hh : M α) (st st1 : Trace) (u : Unit)
    (h : x st = (Except.error u, st1)) : mTry x hh st = hh st1 := by
  simp [mTry, h]

theorem mTry_mPureUnit_ok (x : M Unit) (st : Trace) :
    ∃ st', mTry x (mPure ()) st = (Except.ok (), st') := by
  rcases hx : x st with ⟨r, st1⟩
  cases r with
  | ok a =>
    cases a
    exact ⟨st1, by simp [mTry, hx]⟩
  | error u =>
    exact ⟨st1, by simp [mTry, hx, mPure]⟩

theorem mBind_assoc {α β γ : Type} (x : M α) (f : α → M β) (g : β → M γ)
    (st : Trace) :
    mBind (mBind x f) g st = mBind x (fun a => mBind (f a) g) st := by
  simp only [mBind]
  rcases x st with ⟨r, st1⟩
  cases r <;> simp

/-- The cache-eviction step always resolves: every error inside it is
caught and only logged. -/
theorem removeLocalBudgetCacheBySyncId_ok (w : World) (b : String) (st : Trace) :
    ∃ st', removeLocalBudgetCacheBySyncId w b st = (Except.ok (), st') := by
  unfold removeLocalBudgetCacheBySyncId
  exact mTry_mPureUnit_ok _ st

theorem neutral_isDownloadOf (b : String) (e : Event) (h : NeutralEvent e) :
    Event.isDownloadOf b e = false := by
  rcases h with ⟨h1, _⟩
  cases e <;> first | rfl | exact absurd h1 (by simp [Event.isDownload])

theorem neutral_isResetLogOf (b : String) (e : Event) (h : NeutralEvent e) :
    Event.isResetLogOf b e = false := h.2 b

/-- One download-and-sync attempt body: emits the download event for this
budget, followed only by bank-sync/reconcile/push events. -/
theorem attempt_delta (w : World) (b : String) (pw : Option String) (st : Trace) :
    ∃ r ds, mBind (opDownload w b pw) (fun _ => syncAllAccounts w) st
        = (r, st ++ Event.download b pw :: ds) ∧ ∀ e ∈ ds, NeutralEvent e := by
  have hsync : EmitsOnly NeutralEvent (syncAllAccounts w) := by
    refine emitsOnly_syncAllAccounts NeutralEvent w ?_ ?_ ?_ ?_
    · exact ⟨rfl, fun b' => rfl⟩
    · exact ⟨rfl, fun b' => rfl⟩
    · intro i v
      exact ⟨rfl, fun b' => rfl⟩
    · exact ⟨rfl, fun b' => rfl⟩
  by_cases hdl : w.downloadOk (countE Event.isDownload st) = true
  · have hop : opDownload w b pw st = (Except.ok (), st ++ [Event.download b pw]) := by
      simp [opDownload, emitOp, hdl]
    obtain ⟨ds, hds, hdsP⟩ := hsync (st ++ [Event.download b pw])
    rcases hx : syncAllAccounts w (st ++ [Event.download b pw]) with ⟨r, st1⟩
    rw [hx] at hds
    simp only at hds
    refine ⟨r, ds, ?_, hdsP⟩
    rw [mBind_eq_of_ok _ _ _ _ _ hop, hx, hds]
    simp
  · have hop : opDownload w b pw st = (Except.error (), st ++ [Event.download b pw]) := by
      simp [opDownload, emitOp, hdl]
    refine ⟨Except.error (), [], ?_, by simp⟩
    rw [mBind_eq_of_error _ _ _ _ _ hop]

/-- The retry reset: logs the reset for this budget and then emits only
session/filesystem events — no downloads, no further reset logs. -/
theorem reset_delta (w : World) (b : String) (st : Trace) :
    ∃ r dr, resetApiSessionForRetry w b st
        = (r, st ++ Event.logResetSession b :: dr) ∧ ∀ e ∈ dr, NeutralEvent e := by
  have hrest : EmitsOnly NeutralEvent
      (mBind (mTry (opShutdown w) (mPure ())) (fun _ =>
        mBind (removeLocalBudgetCacheBySyncId w b) (fun _ =>
          createDataDirAndInitApi w))) := by
    refine emitsOnly_mBind _ _ _
      (emitsOnly_mTry _ _ _ (emitsOnly_emitOp _ _ _ ⟨rfl, fun b' => rfl⟩)
        (emitsOnly_mPure _ _)) ?_
    intro a
    refine emitsOnly_mBind _ _ _ ?_ ?_
    · refine emitsOnly_removeLocalBudgetCacheBySyncId _ w b ⟨rfl, fun b' => rfl⟩
        (fun n => ⟨rfl, fun b' => rfl⟩) (fun n ok => ⟨rfl, fun b' => rfl⟩)
        ⟨rfl, fun b' => rfl⟩
    · intro a2
      exact emitsOnly_createDataDirAndInitApi _ w ⟨rfl, fun b' => rfl⟩
        ⟨rfl, fun b' => rfl⟩ ⟨rfl, fun b' => rfl⟩
  obtain ⟨dr, hdr, hdrP⟩ := hrest (st ++ [Event.logResetSession b])
  rcases hx : (mBind (mTry (opShutdown w) (mPure ())) (fun _ =>
      mBind (removeLocalBudgetCacheBySyncId w b) (fun _ =>
        createDataDirAndInitApi w))) (st ++ [Event.logResetSession b]) with ⟨r, st1⟩
  rw [hx] at hdr
  simp only at hdr
  refine ⟨r, dr, ?_, hdrP⟩
  unfold resetApiSessionForRetry opLogResetSession
  rw [mBind_eq_of_ok _ _ _ _ _ (emitOp_true_eq (Event.logResetSession b) st), hx, hdr]
  simp

/-- The retry reset's outcome is exactly the outcome of its final
`createDataDirAndInitApi` step: the shutdown error and every
cache-eviction error are swallowed before it. -/
theorem reset_result (w : World) (b : String) (st : Trace) :
    ∃ stMid, resetApiSessionForRetry w b st = createDataDirAndInitApi w stMid := by
  obtain ⟨st2, h2⟩ := mTry_mPureUnit_ok (opShutdown w) (st ++ [Event.logResetSession b])
  obtain ⟨st3, h3⟩ := removeLocalBudgetCacheBySyncId_ok w b st2
  refine ⟨st3, ?_⟩
  unfold resetApiSessionForRetry opLogResetSession
  rw [mBind_eq_of_ok _ _ _ _ _ (emitOp_true_eq (Event.logResetSession b) st)]
  rw [mBind_eq_of_ok _ _ _ _ _ h2]
  rw [mBind_eq_of_ok _ _ _ _ _ h3]

theorem syncAttemptLoop_two (w : World) (b : String) (pw : Option String) :
    syncAttemptLoop w b pw 2
      = mTry (mBind (opDownload w b pw) (fun _ => syncAllAccounts w))
          (mBind (resetApiSessionForRetry w b) (fun _ => syncAttemptLoop w b pw 1)) := by
  rfl

theorem syncAttemptLoop_one (w : World) (b : String) (pw : Option String) :
    syncAttemptLoop w b pw 1
      = mTry (mBind (opDownload w b pw) (fun _ => syncAllAccounts w)) mThrow := by
  rfl

/-- A budget run that ends in an error made its first attempt (exactly one
download of this budget), then performed exactly one retry reset, and made
at most one further download of it afterwards. -/
theorem downloadAndSyncBudget_error_split (w : World) (cfg : Config) (b : String)
    (index : Nat) (st tr : Trace) (u : Unit)
    (h : downloadAndSyncBudget w cfg b index st = (Except.error u, tr)) :
    ∃ d1 d2, tr = st ++ d1 ++ Event.logResetSession b :: d2 ∧
      countE (Event.isDownloadOf b) d1 = 1 ∧
      countE (Event.isResetLogOf b) d1 = 0 ∧
      countE (Event.isResetLogOf b) d2 = 0 ∧
      countE (Event.isDownloadOf b) d2 ≤ 1 := by
  rw [show downloadAndSyncBudget w cfg b index
      = syncAttemptLoop w b (passwordAt cfg index) 2 from rfl] at h
  rw [syncAttemptLoop_two] at h
  obtain ⟨r1, ds, hA, hdsP⟩ := attempt_delta w b (passwordAt cfg index) st
  have hd1dl : countE (Event.isDownloadOf b)
      (Event.download b (passwordAt cfg index) :: ds) = 1 := by
    rw [countE_cons_pos _ _ _ (by simp [Event.isDownloadOf]),
      countE_eq_zero_of _ _ (fun e he => neutral_isDownloadOf b e (hdsP e he))]
  have hd1rl : countE (Event.isResetLogOf b)
      (Event.download b (passwordAt cfg index) :: ds) = 0 := by
    rw [countE_cons_neg _ _ _ (by simp [Event.isResetLogOf]),
      countE_eq_zero_of _ _ (fun e he => neutral_isResetLogOf b e (hdsP e he))]
  cases r1 with
  | ok a =>
    rw [mTry_eq_of_ok _ _ _ _ _ hA] at h
    simp at h
  | error u1 =>
    rw [mTry_eq_of_error _ _ _ _ _ hA] at h
    obtain ⟨r2, dr, hR, hdrP⟩ :=
      reset_delta w b (st ++ Event.download b (passwordAt cfg index) :: ds)
    cases r2 with
    | error u2 =>
      rw [mBind_eq_of_error _ _ _ _ _ hR] at h
      rw [Prod.mk.injEq] at h
      obtain ⟨hu, htr⟩ := h
      refine ⟨Event.download b (passwordAt cfg index) :: ds, dr, ?_, hd1dl, hd1rl, ?_, ?_⟩
      · rw [← htr]
      · exact countE_eq_zero_of _ _ (fun e he => neutral_isResetLogOf b e (hdrP e he))
      · rw [countE_eq_zero_of _ _ (fun e he => neutral_isDownloadOf b e (hdrP e he))]
        exact Nat.zero_le 1
    | ok a2 =>
      rw [mBind_eq_of_ok _ _ _ _ _ hR] at h
      rw [syncAttemptLoop_one] at h
      obtain ⟨r3, ds', hA2, hds'P⟩ := attempt_delta w b (passwordAt cfg index)
        (st ++ Event.download b (passwordAt cfg index) :: ds
          ++ Event.logResetSession b :: dr)
      cases r3 with
      | ok a3 =>
        rw [mTry_eq_of_ok _ _ _ _ _ hA2] at h
        simp at h
      | error u3 =>
        rw [mTry_eq_of_error _ _ _ _ _ hA2] at h
        simp only [mThrow, Prod.mk.injEq] at h
        obtain ⟨hu, htr⟩ := h
        refine ⟨Event.download b (passwordAt cfg index) :: ds,
          dr ++ Event.download b (passwordAt cfg index) :: ds', ?_, hd1dl, hd1rl, ?_, ?_⟩
        · rw [← htr]
          simp
        · rw [countE_append,
            countE_eq_zero_of _ _ (fun e he => neutral_isResetLogOf b e (hdrP e he)),
            countE_cons_neg _ _ _ (by simp [Event.isResetLogOf]),
            countE_eq_zero_of _ _ (fun e he => neutral_isResetLogOf b e (hds'P e he))]
        · rw [countE_append,
            countE_eq_zero_of _ _ (fun e he => neutral_isDownloadOf b e (hdrP e he)),
            countE_cons_pos _ _ _ (by simp [Event.isDownloadOf]),
            countE_eq_zero_of _ _ (fun e he => neutral_isDownloadOf b e (hds'P e he))]

theorem budgetsLoop_append (w : World) (cfg : Config)
    (xs ys : List (Nat × String)) (failed : List String) (st : Trace) :
    budgetsLoop w cfg (xs ++ ys) failed st
      = mBind (budgetsLoop w cfg xs failed)
          (fun f1 => budgetsLoop w cfg ys f1) st := by
  induction xs generalizing failed st with
  | nil =>
    rw [List.nil_append]
    rw [show budgetsLoop w cfg [] failed = mPure failed from rfl]
    rw [mBind_eq_of_ok _ _ _ _ _ (show mPure failed st = (Except.ok failed, st) from rfl)]
  | cons pr rest ih =>
    rcases pr with ⟨index, budgetId⟩
    rw [List.cons_append]
    rw [show budgetsLoop w cfg ((index, budgetId) :: (rest ++ ys)) failed
        = mBind (mTry (mBind (downloadAndSyncBudget w cfg budgetId index)
            (fun _ => mPure failed)) (mPure (failed ++ [budgetId])))
          (fun f1 => budgetsLoop w cfg (rest ++ ys) f1) from rfl]
    rw [show budgetsLoop w cfg ((index, budgetId) :: rest) failed
        = mBind (mTry (mBind (downloadAndSyncBudget w cfg budgetId index)
            (fun _ => mPure failed)) (mPure (failed ++ [budgetId])))
          (fun f1 => budgetsLoop w cfg rest f1) from rfl]
    rw [mBind_assoc]
    rcases hstep : (mTry (mBind (downloadAndSyncBudget w cfg budgetId index)
        (fun _ => mPure failed)) (mPure (failed ++ [budgetId]))) st with ⟨r, st1⟩
    cases r with
    | ok f1 =>
      rw [mBind_eq_of_ok _ _ _ _ _ hstep, mBind_eq_of_ok _ _ _ _ _ hstep]
      exact ih f1 st1
    | error uu =>
      rw [mBind_eq_of_error _ _ _ _ _ hstep, mBind_eq_of_error _ _ _ _ _ hstep]

theorem budgetsLoop_cons_ok (w : World) (cfg : Config) (index : Nat)
    (budgetId : String) (rest : List (Nat × String)) (failed : List String)
    (st st1 : Trace) (a : Unit)
    (h : downloadAndSyncBudget w cfg budgetId index st = (Except.ok a, st1)) :
    budgetsLoop w cfg ((index, budgetId) :: rest) failed st
      = budgetsLoop w cfg rest failed st1 := by
  have hbody : mBind (downloadAndSyncBudget w cfg budgetId index)
      (fun _ => mPure failed) st = (Except.ok failed, st1) := by
    rw [mBind_eq_of_ok _ _ _ _ _ h]
    rfl
  have hstep : mTry (mBind (downloadAndSyncBudget w cfg budgetId index)
      (fun _ => mPure failed)) (mPure (failed ++ [budgetId])) st
      = (Except.ok failed, st1) := mTry_eq_of_ok _ _ _ _ _ hbody
  rw [show budgetsLoop w cfg ((index, budgetId) :: rest) failed
      = mBind (mTry (mBind (downloadAndSyncBudget w cfg budgetId index)
          (fun _ => mPure failed)) (mPure (failed ++ [budgetId])))
        (fun failed1 => budgetsLoop w cfg rest failed1) from rfl]
  rw [mBind_eq_of_ok _ _ _ _ _ hstep]

theorem budgetsLoop_cons_error (w : World) (cfg : Config) (index : Nat)
    (budgetId : String) (rest : List (Nat × String)) (failed : List String)
    (st st1 : Trace) (u : Unit)
    (h : downloadAndSyncBudget w cfg budgetId index st = (Except.error u, st1)) :
    budgetsLoop w cfg ((index, budgetId) :: rest) failed st
      = budgetsLoop w cfg rest (failed ++ [budgetId]) st1 := by
  have hbody : mBind (downloadAndSyncBudget w cfg budgetId index)
      (fun _ => mPure failed) st = (Except.error u, st1) :=
    mBind_eq_of_error _ _ _ _ _ h
  have hstep : mTry (mBind (downloadAndSyncBudget w cfg budgetId index)
      (fun _ => mPure failed)) (mPure (failed ++ [budgetId])) st
      = (Except.ok (failed ++ [budgetId]), st1) := by
    rw [mTry_eq_of_error _ _ _ _ _ hbody]
    rfl
  rw [show budgetsLoop w cfg ((index, budgetId) :: rest) failed
      = mBind (mTry (mBind (downloadAndSyncBudget w cfg budgetId index)
          (fun _ => mPure failed)) (mPure (failed ++ [budgetId])))
        (fun failed1 => budgetsLoop w cfg rest failed1) from rfl]
  rw [mBind_eq_of_ok _ _ _ _ _ hstep]

/-- The budget loop over entries that do not mention budget `b`: it always
resolves, only appends other budgets to the failed list, and emits no
download or reset-log event for `b`. -/
theorem budgetsLoop_no_b (w : World) (cfg : Config)
    (entries : List (Nat × String)) (b : String)
    (hb : b ∉ entries.map Prod.snd) (failed : List String) (st : Trace) :
    ∃ extra d, budgetsLoop w cfg entries failed st
        = (Except.ok (failed ++ extra), st ++ d)
      ∧ b ∉ extra
      ∧ countE (Event.isDownloadOf b) d = 0
      ∧ countE (Event.isResetLogOf b) d = 0 := by
  induction entries generalizing failed st with
  | nil =>
    refine ⟨[], [], ?_, by simp, rfl, rfl⟩
    simp [budgetsLoop, mPure]
  | cons pr rest ih =>
    rcases pr with ⟨index, budgetId⟩
    have hne : budgetId ≠ b := by
      intro hEq
      exact hb (by simp [hEq])
    have hbrest : b ∉ rest.map Prod.snd := by
      intro hmem
      exact hb (by simp [hmem])
    have hrun : EmitsOnly (fun e => Event.isDownloadOf b e = false
        ∧ Event.isResetLogOf b e = false)
        (downloadAndSyncBudget w cfg budgetId index) := by
      refine emitsOnly_downloadAndSyncBudget _ w cfg budgetId index ?_ ?_ ?_ ?_ ?_
        ?_ ?_ ?_ ?_ ?_ ?_ ?_ ?_ ?_
      · exact ⟨by simp [Event.isDownloadOf, hne], rfl⟩
      · exact ⟨rfl, rfl⟩
      · exact ⟨rfl, rfl⟩
      · intro i v
        exact ⟨rfl, rfl⟩
      · exact ⟨rfl, rfl⟩
      · exact ⟨rfl, by simp [Event.isResetLogOf, hne]⟩
      · exact ⟨rfl, rfl⟩
      · exact ⟨rfl, rfl⟩
      · intro n
        exact ⟨rfl, rfl⟩
      · intro n ok
        exact ⟨rfl, rfl⟩
      · exact ⟨rfl, rfl⟩
      · exact ⟨rfl, rfl⟩
      · exact ⟨rfl, rfl⟩
      · exact ⟨rfl, rfl⟩
    obtain ⟨d0, hd0, hd0P⟩ := hrun st
    rcases hx : downloadAndSyncBudget w cfg budgetId index st with ⟨r, st1⟩
    rw [hx] at hd0
    simp only at hd0
    have hd0dl : countE (Event.isDownloadOf b) d0 = 0 :=
      countE_eq_zero_of _ _ (fun e he => (hd0P e he).1)
    have hd0rl : countE (Event.isResetLogOf b) d0 = 0 :=
      countE_eq_zero_of _ _ (fun e he => (hd0P e he).2)
    cases r with
    | ok a =>
      obtain ⟨extra, d, hrec, hbe, hdl, hrl⟩ := ih hbrest failed st1
      refine ⟨extra, d0 ++ d, ?_, hbe, ?_, ?_⟩
      · rw [budgetsLoop_cons_ok w cfg index budgetId rest failed st st1 a hx, hrec, hd0]
        simp
      · rw [countE_append, hd0dl, hdl]
      · rw [countE_append, hd0rl, hrl]
    | error u =>
      obtain ⟨extra, d, hrec, hbe, hdl, hrl⟩ := ih hbrest (failed ++ [budgetId]) st1
      refine ⟨[budgetId] ++ extra, d0 ++ d, ?_, ?_, ?_, ?_⟩
      · rw [budgetsLoop_cons_error w cfg index budgetId rest failed st st1 u hx, hrec, hd0]
        simp
      · intro hmem
        rcases List.mem_append.mp hmem with hm | hm
        · exact hne (List.mem_singleton.mp hm).symm
        · exact hbe hm
      · rw [countE_append, hd0dl, hdl]
      · rw [countE_append, hd0rl, hrl]

/-- A list of indexed entries whose budget names contain `b` exactly once
splits around the unique entry for `b`. -/
theorem entries_split (entries : List (Nat × String)) (b : String)
    (h : (entries.map Prod.snd).count b = 1) :
    ∃ pre i post, entries = pre ++ (i, b) :: post
      ∧ b ∉ pre.map Prod.snd ∧ b ∉ post.map Prod.snd := by
  induction entries with
  | nil => simp at h
  | cons q rest ih =>
    rcases q with ⟨i0, b0⟩
    by_cases hq : b0 = b
    · subst hq
      have hrest : (rest.map Prod.snd).count b0 = 0 := by
        simp [List.count_cons] at h
        exact h
      refine ⟨[], i0, rest, by simp, by simp, ?_⟩
      exact (List.count_eq_zero.mp hrest)
    · have hrest : (rest.map Prod.snd).count b = 1 := by
        simp [List.count_cons, hq] at h
        simpa using h
      obtain ⟨pre, i, post, hsplit, hpre, hpost⟩ := ih hrest
      refine ⟨(i0, b0) :: pre, i, post, by simp [hsplit], ?_, hpost⟩
      intro hm
      rcases List.mem_cons.mp hm with hm1 | hm1
      · exact hq hm1.symm
      · exact hpre hm1

/-- C3: a target whose attempts all fail appears exactly once in the
aggregated failure list, the aggregated error is raised, and exactly one
session reset is logged for it — strictly between its first and its last
download attempt. -/
theorem c3_failed_target_once_one_reset (w : World) (cfg : Config) (b : String)
    (fl : List String) (tr : Trace)
    (hcount : cfg.syncIds.count b = 1)
    (hrun : downloadConfiguredBudgetsResult w cfg [] = (Except.ok fl, tr))
    (hmem : b ∈ fl)
    (hboth : countE (Event.isDownloadOf b) tr = MAX_BUDGET_SYNC_ATTEMPTS) :
    fl.count b = 1
    ∧ downloadConfiguredBudgets w cfg [] = (Except.error (), tr)
    ∧ ∃ t1 t2, tr = t1 ++ Event.logResetSession b :: t2
        ∧ countE (Event.isResetLogOf b) t1 = 0
        ∧ countE (Event.isResetLogOf b) t2 = 0
        ∧ countE (Event.isDownloadOf b) t1 = 1
        ∧ countE (Event.isDownloadOf b) t2 = 1 := by
  have hmap : (cfg.syncIds.enum.map Prod.snd).count b = 1 := by
    rw [List.enum_map_snd]
    exact hcount
  obtain ⟨pre, i, post, hsplit, hpre, hpost⟩ := entries_split cfg.syncIds.enum b hmap
  have hrun' : budgetsLoop w cfg (pre ++ (i, b) :: post) [] [] = (Except.ok fl, tr) := by
    rw [← hsplit]
    exact hrun
  obtain ⟨extraPre, dPre, hPre, hbPre, hPreDl, hPreRl⟩ :=
    budgetsLoop_no_b w cfg pre b hpre [] []
  rw [budgetsLoop_append w cfg pre ((i, b) :: post) [] [],
    mBind_eq_of_ok _ _ _ _ _ hPre] at hrun'
  simp only [List.nil_append] at hrun' hPre
  rcases hxb : downloadAndSyncBudget w cfg b i dPre with ⟨rb, stb⟩
  cases rb with
  | ok a =>
    rw [budgetsLoop_cons_ok w cfg i b post extraPre dPre stb a hxb] at hrun'
    obtain ⟨extraPost, dPost, hPost, hbPost, hPostDl, hPostRl⟩ :=
      budgetsLoop_no_b w cfg post b hpost extraPre stb
    rw [hPost, Prod.mk.injEq] at hrun'
    obtain ⟨hfl, htr⟩ := hrun'
    rw [Except.ok.injEq] at hfl
    exfalso
    rw [← hfl] at hmem
    rcases List.mem_append.mp hmem with hm | hm
    · exact hbPre hm
    · exact hbPost hm
  | error u =>
    rw [budgetsLoop_cons_error w cfg i b post extraPre dPre stb u hxb] at hrun'
    obtain ⟨extraPost, dPost, hPost, hbPost, hPostDl, hPostRl⟩ :=
      budgetsLoop_no_b w cfg post b hpost (extraPre ++ [b]) stb
    rw [hPost, Prod.mk.injEq] at hrun'
    obtain ⟨hfl, htr⟩ := hrun'
    rw [Except.ok.injEq] at hfl
    obtain ⟨d1, d2, hstb, hd1dl, hd1rl, hd2rl, hd2dl⟩ :=
      downloadAndSyncBudget_error_split w cfg b i dPre stb u hxb
    have hflc : fl.count b = 1 := by
      rw [← hfl]
      simp [List.count_append, List.count_eq_zero.mpr hbPre,
        List.count_eq_zero.mpr hbPost]
    have htr2 : tr = dPre ++ d1 ++ Event.logResetSession b :: (d2 ++ dPost) := by
      rw [← htr, hstb]
      simp
    have hd2dl1 : countE (Event.isDownloadOf b) d2 = 1 := by
      have : countE (Event.isDownloadOf b) tr
          = countE (Event.isDownloadOf b) d2 + 1 := by
        rw [htr2]
        rw [countE_append, countE_append, countE_cons_neg _ _ _ rfl,
          countE_append, hPreDl, hd1dl, hPostDl]
        omega
      rw [hboth, show MAX_BUDGET_SYNC_ATTEMPTS = 2 from rfl] at this
      omega
    refine ⟨hflc, ?_, ?_⟩
    · unfold downloadConfiguredBudgets
      rw [mBind_eq_of_ok _ _ _ _ _ hrun]
      have hne : fl ≠ [] := by
        intro hnil
        rw [hnil] at hmem
        exact List.not_mem_nil b hmem
      rw [if_neg (by simpa [List.isEmpty_iff] using hne)]
      rfl
    · refine ⟨dPre ++ d1, d2 ++ dPost, by simpa using htr2, ?_, ?_, ?_, ?_⟩
      · rw [countE_append, hPreRl, hd1rl]
      · rw [countE_append, hd2rl, hPostRl]
      · rw [countE_append, hPreDl, hd1dl]
      · rw [countE_append, hd2dl1, hPostDl]

/-- Witness for C3: a single configured budget whose downloads always
fail is reported once, the aggregated error is raised, and its one reset
sits between its two download attempts. -/
theorem c3_witness :
    cfgOneBudget.syncIds.count "b1" = 1
    ∧ (["b1"] : List String).count "b1" = 1
    ∧ downloadConfiguredBudgets wDownloadAlwaysFails cfgOneBudget []
        = (Except.error (),
          [Event.download "b1" none, Event.logResetSession "b1",
           Event.apiShutdown, Event.readdirData, Event.logNoCacheFound "b1",
           Event.mkdirData, Event.accessCheck, Event.apiInit,
           Event.download "b1" none])
    ∧ ∃ t1 t2,
        [Event.download "b1" none, Event.logResetSession "b1",
         Event.apiShutdown, Event.readdirData, Event.logNoCacheFound "b1",
         Event.mkdirData, Event.accessCheck, Event.apiInit,
         Event.download "b1" none]
          = t1 ++ Event.logResetSession "b1" :: t2
        ∧ countE (Event.isResetLogOf "b1") t1 = 0
        ∧ countE (Event.isResetLogOf "b1") t2 = 0
        ∧ countE (Event.isDownloadOf "b1") t1 = 1
        ∧ countE (Event.isDownloadOf "b1") t2 = 1 := by
  have h := c3_failed_target_once_one_reset wDownloadAlwaysFails cfgOneBudget "b1"
    ["b1"]
    [Event.download "b1" none, Event.logResetSession "b1",
     Event.apiShutdown, Event.readdirData, Event.logNoCacheFound "b1",
     Event.mkdirData, Event.accessCheck, Event.apiInit,
     Event.download "b1" none]
    (by decide) rfl (by decide) (by decide)
  exact ⟨by decide, h.1, h.2.1, h.2.2⟩

/-- C2: with targets `[b1, b2]`, `b1`'s download rejecting once then
resolving and everything else resolving, one cycle performs 3 downloads,
2 bank-syncs, 2 pushes, raises no aggregated error, and opens and closes
the session twice in total (the normal pair plus one reset pair). -/
theorem c2_end_to_end_scenario :
    (sync wRetryOnce cfgTwoBudgets []).1 = Except.ok ()
    ∧ countE Event.isDownload (sync wRetryOnce cfgTwoBudgets []).2 = 3
    ∧ countE Event.isBankSync (sync wRetryOnce cfgTwoBudgets []).2 = 2
    ∧ countE Event.isPush (sync wRetryOnce cfgTwoBudgets []).2 = 2
    ∧ countE Event.isInit (sync wRetryOnce cfgTwoBudgets []).2 = 2
    ∧ countE Event.isShutdown (sync wRetryOnce cfgTwoBudgets []).2 = 2
    ∧ countE (Event.isResetLogOf "b1") (sync wRetryOnce cfgTwoBudgets []).2 = 1
    ∧ (downloadConfiguredBudgets wRetryOnce cfgTwoBudgets
        [Event.mkdirData, Event.accessCheck, Event.apiInit, Event.formatCron]).1
        = Except.ok () := by
  refine ⟨rfl, ?_, ?_, ?_, ?_, ?_, ?_, rfl⟩ <;> decide

/-- No event emitted by a budget run is the scheduler's emergency
marker. -/
theorem notMarker_downloadAndSyncBudget (w : World) (cfg : Config) (b : String)
    (index : Nat) :
    EmitsOnly (fun e => e ≠ Event.emergencyShutdown)
      (downloadAndSyncBudget w cfg b index) := by
  refine emitsOnly_downloadAndSyncBudget _ w cfg b index ?_ ?_ ?_ ?_ ?_ ?_ ?_ ?_
    ?_ ?_ ?_ ?_ ?_ ?_ <;>
    first
    | exact fun h => Event.noConfusion h
    | intro n
      exact fun h => Event.noConfusion h
    | intro i v
      exact fun h => Event.noConfusion h

/-- No event emitted by one sync cycle is the scheduler's emergency
marker. -/
theorem notMarker_runSyncCycle (w : World) (cfg : Config) :
    EmitsOnly (fun e => e ≠ Event.emergencyShutdown) (runSyncCycle w cfg) := by
  unfold runSyncCycle downloadConfiguredBudgets downloadConfiguredBudgetsResult
  refine emitsOnly_mTry _ _ _ ?_ (emitsOnly_mPure _ _)
  refine emitsOnly_mBind _ _ _
    (emitsOnly_createDataDirAndInitApi _ w (fun h => Event.noConfusion h)
      (fun h => Event.noConfusion h) (fun h => Event.noConfusion h)) ?_
  intro a
  refine emitsOnly_mBind _ _ _
    (emitsOnly_emitOp _ _ _ (fun h => Event.noConfusion h)) ?_
  intro a2
  refine emitsOnly_mBind _ _ _
    (emitsOnly_budgetsLoop _ w cfg cfg.syncIds.enum []
      (fun pr _ => notMarker_downloadAndSyncBudget w cfg pr.2 pr.1)) ?_
  intro failed
  by_cases hf : failed.isEmpty
  · rw [if_pos hf]
    exact emitsOnly_mPure _ _
  · rw [if_neg hf]
    exact emitsOnly_mThrow _

/-- The whole service run never emits the emergency marker either. -/
theorem sync_trace_no_marker (w : World) (cfg : Config) (st : Trace) :
    ∃ d, (sync w cfg st).2 = st ++ d ∧ ∀ e ∈ d, e ≠ Event.emergencyShutdown := by
  obtain ⟨d1, h1, h1P⟩ := notMarker_runSyncCycle w cfg st
  rcases hc : runSyncCycle w cfg st with ⟨r1, st1⟩
  rw [hc] at h1
  simp only at h1
  obtain ⟨d2, h2, h2P⟩ :=
    emitsOnly_mTry (fun e => e ≠ Event.emergencyShutdown) (opShutdown w) (mPure ())
      (emitsOnly_emitOp _ _ _ (fun h => Event.noConfusion h))
      (emitsOnly_mPure _ _) st1
  refine ⟨d1 ++ d2, ?_, ?_⟩
  · rw [show (sync w cfg st).2
        = (mTry (opShutdown w) (mPure ()) (runSyncCycle w cfg st).2).2 from rfl]
    rw [hc]
    simp only
    rw [h2, h1, List.append_assoc]
  · intro e he
    rcases List.mem_append.mp he with hm | hm
    · exact h1P e hm
    · exact h2P e hm

/-- The cycle boundary always resolves: `runSyncCycle` catches every
error of the cycle body. -/
theorem runSyncCycle_always_ok (w : World) (cfg : Config) (st : Trace) :
    ∃ st1, runSyncCycle w cfg st = (Except.ok (), st1) := by
  obtain ⟨st1, h1⟩ := mTry_mPureUnit_ok
    (mBind (createDataDirAndInitApi w) (fun _ =>
      mBind (opFormatCron w) (fun _ => downloadConfiguredBudgets w cfg)))
    st
  exact ⟨st1, h1⟩

/-- The service entry point always resolves. -/
theorem sync_always_ok (w : World) (cfg : Config) (st : Trace) :
    (sync w cfg st).1 = Except.ok () := by
  obtain ⟨st1, hc⟩ := runSyncCycle_always_ok w cfg st
  rw [show (sync w cfg st).1 = (runSyncCycle w cfg st).1 from rfl, hc]

/-- C9: whatever the remote library and filesystem do, `sync()` resolves
— every failure is caught inside it — so the scheduler `onTick`'s
emergency-shutdown branch is never taken. -/
theorem c9_sync_never_rejects (w : World) (cfg : Config) (st : Trace) :
    (sync w cfg st).1 = Except.ok ()
    ∧ Event.emergencyShutdown ∉ onTick w cfg := by
  have hok : ∀ st', (sync w cfg st').1 = Except.ok () := fun st' =>
    sync_always_ok w cfg st'
  refine ⟨hok st, ?_⟩
  obtain ⟨d, hd, hdP⟩ := sync_trace_no_marker w cfg []
  rcases hs : sync w cfg [] with ⟨r, tr⟩
  rw [hs] at hd
  simp only at hd
  have hr : r = Except.ok () := by
    have := hok []
    rw [hs] at this
    exact this
  subst hr
  rw [show onTick w cfg = (match sync w cfg [] with
    | (Except.ok _, tr) => tr
    | (Except.error _, tr) =>
      (mBind (emitOp Event.emergencyShutdown (fun _ => true)) (fun _ => opShutdown w)
        tr).2) from rfl]
  rw [hs]
  simp only
  intro hmem
  rw [hd] at hmem
  simp only [List.nil_append] at hmem
  exact hdP _ hmem rfl

theorem budgetScoped_download (b : String) (pw : Option String) :
    BudgetScoped b pw (Event.download b pw) := by
  constructor
  · intro b' p' h
    cases h
    exact ⟨rfl, rfl⟩
  · intro b' h
    exact Event.noConfusion h

theorem budgetScoped_resetLog (b : String) (pw : Option String) :
    BudgetScoped b pw (Event.logResetSession b) := by
  constructor
  · intro b' p' h
    exact Event.noConfusion h
  · intro b' h
    cases h
    rfl

/-- Every event emitted by the run for budget `b` at slot `index` is
scoped to `b` and its configured password. -/
theorem scoped_downloadAndSyncBudget (w : World) (cfg : Config) (b : String)
    (index : Nat) :
    EmitsOnly (BudgetScoped b (passwordAt cfg index))
      (downloadAndSyncBudget w cfg b index) := by
  refine emitsOnly_downloadAndSyncBudget _ w cfg b index
    (budgetScoped_download b _) ?_ ?_ ?_ ?_ (budgetScoped_resetLog b _)
    ?_ ?_ ?_ ?_ ?_ ?_ ?_ ?_ <;>
    first
    | exact ⟨fun b' p' h => Event.noConfusion h, fun b' h => Event.noConfusion h⟩
    | intro n
      exact ⟨fun b' p' h => Event.noConfusion h, fun b' h => Event.noConfusion h⟩
    | intro i v
      exact ⟨fun b' p' h => Event.noConfusion h, fun b' h => Event.noConfusion h⟩

/-- The budget loop's trace decomposes into one contiguous segment per
configured entry, in list order, each scoped to its own budget. -/
theorem budgetsLoop_segments (w : World) (cfg : Config)
    (entries : List (Nat × String)) (failed : List String) (st : Trace) :
    ∃ segs : List Trace,
      (budgetsLoop w cfg entries failed st).2 = st ++ segs.flatten
      ∧ List.Forall₂ (fun (pr : Nat × String) (seg : Trace) =>
          ∀ e ∈ seg, BudgetScoped pr.2 (passwordAt cfg pr.1) e) entries segs := by
  induction entries generalizing failed st with
  | nil =>
    refine ⟨[], by simp [budgetsLoop, mPure], List.Forall₂.nil⟩
  | cons pr rest ih =>
    rcases pr with ⟨index, budgetId⟩
    obtain ⟨seg, hseg, hsegP⟩ := scoped_downloadAndSyncBudget w cfg budgetId index st
    rcases hx : downloadAndSyncBudget w cfg budgetId index st with ⟨r, st1⟩
    rw [hx] at hseg
    simp only at hseg
    cases r with
    | ok a =>
      obtain ⟨segs, hjoin, hforall⟩ := ih failed st1
      refine ⟨seg :: segs, ?_, List.Forall₂.cons hsegP hforall⟩
      rw [budgetsLoop_cons_ok w cfg index budgetId rest failed st st1 a hx, hjoin,
        hseg]
      simp
    | error u =>
      obtain ⟨segs, hjoin, hforall⟩ := ih (failed ++ [budgetId]) st1
      refine ⟨seg :: segs, ?_, List.Forall₂.cons hsegP hforall⟩
      rw [budgetsLoop_cons_error w cfg index budgetId rest failed st st1 u hx, hjoin,
        hseg]
      simp

/-- C7: the orchestrator's trace is the in-order concatenation of one
contiguous segment per configured target; every download or reset-log
event of a segment names that segment's own target, so no two targets'
remote calls interleave. -/
theorem c7_sequential_segments (w : World) (cfg : Config) (st : Trace) :
    ∃ segs : List Trace,
      (downloadConfiguredBudgetsResult w cfg st).2 = st ++ segs.flatten
      ∧ segs.length = cfg.syncIds.length
      ∧ List.Forall₂ (fun (pr : Nat × String) (seg : Trace) =>
          ∀ e ∈ seg, BudgetScoped pr.2 (passwordAt cfg pr.1) e)
        cfg.syncIds.enum segs := by
  obtain ⟨segs, hjoin, hforall⟩ :=
    budgetsLoop_segments w cfg cfg.syncIds.enum [] st
  refine ⟨segs, hjoin, ?_, hforall⟩
  have := List.Forall₂.length_eq hforall
  rw [List.enum_length] at this
  exact this.symm

/-- C8: every download issued for a target carries exactly the password
selected by the target's list position — `some` of the slot's value when
that slot is non-empty, omitted (`none`) when the slot is absent or
empty — and a download is never issued with `some ""`. -/
theorem c8_password_positional (w : World) (cfg : Config) (b : String)
    (index : Nat) (st : Trace) :
    (∃ d, (downloadAndSyncBudget w cfg b index st).2 = st ++ d
      ∧ ∀ e ∈ d, ∀ b' p', e = Event.download b' p' →
          b' = b ∧ p' = passwordAt cfg index)
    ∧ (cfg.passwords.getD index "" ≠ "" →
        passwordAt cfg index = some (cfg.passwords.getD index ""))
    ∧ (cfg.passwords.getD index "" = "" → passwordAt cfg index = none)
    ∧ passwordAt cfg index ≠ some "" := by
  refine ⟨?_, ?_, ?_, ?_⟩
  · obtain ⟨d, hd, hdP⟩ := scoped_downloadAndSyncBudget w cfg b index st
    exact ⟨d, hd, fun e he b' p' hEq => (hdP e he).1 b' p' hEq⟩
  · intro hne
    unfold passwordAt
    rw [if_neg hne]
  · intro heq
    unfold passwordAt
    rw [if_pos heq]
  · unfold passwordAt
    by_cases h : cfg.passwords.getD index "" = ""
    · rw [if_pos h]
      exact fun hc => Option.noConfusion hc
    · rw [if_neg h]
      intro hc
      rw [Option.some.injEq] at hc
      exact h hc

/-- Witness for C8: with one configured password `p1`, slot 0 yields
`some "p1"` and the out-of-range slot 1 yields `none`; the passwordless
config's slot 0 also yields `none`. -/
theorem c8_witness :
    passwordAt cfgWithPassword 0 = some "p1"
    ∧ passwordAt cfgWithPassword 1 = none
    ∧ passwordAt cfgTwoBudgets 0 = none
    ∧ passwordAt cfgWithPassword 0 ≠ some ""
    ∧ ∃ d, (downloadAndSyncBudget allOkWorld cfgWithPassword "b1" 0 []).2 = [] ++ d
      ∧ ∀ e ∈ d, ∀ b' p', e = Event.download b' p' →
          b' = "b1" ∧ p' = passwordAt cfgWithPassword 0 := by
  refine ⟨?_, ?_, ?_, ?_, ?_⟩
  · exact (c8_password_positional allOkWorld cfgWithPassword "b1" 0 []).2.1 (by decide)
  · exact (c8_password_positional allOkWorld cfgWithPassword "b1" 1 []).2.2.1 (by decide)
  · exact (c8_password_positional allOkWorld cfgTwoBudgets "b1" 0 []).2.2.1 (by decide)
  · exact (c8_password_positional allOkWorld cfgWithPassword "b1" 0 []).2.2.2
  · exact (c8_password_positional allOkWorld cfgWithPassword "b1" 0 []).1

/-- One scan step: a non-directory entry emits nothing and is skipped; a
directory with unreadable or non-matching metadata emits one read event
and is skipped; a matching directory is read and its removal attempted —
the step reports `true` exactly when the `rm` call resolves, and a
rejecting `rm` is caught so the step reports `false` and the scan
continues. -/
theorem maybeRemove_spec (w : World) (b : String) (d0 : DirEnt) (st : Trace) :
    maybeRemoveLocalBudgetCacheBySyncId w b d0 st
      = (if cacheMatch b d0 then
          (Except.ok (w.rmOk (countE Event.isRm st)),
            st ++ [Event.readMetadata d0.name,
              Event.rmDir d0.name (w.rmOk (countE Event.isRm st))])
        else if d0.isDir then
          (Except.ok false, st ++ [Event.readMetadata d0.name])
        else
          (Except.ok false, st)) := by
  unfold maybeRemoveLocalBudgetCacheBySyncId
  by_cases hdir : d0.isDir
  · rw [if_neg (by simp [hdir])]
    rcases hmeta : d0.metadata with _ | m
    · have hread : opReadMetadata d0 st
          = (Except.error (), st ++ [Event.readMetadata d0.name]) := by
        simp [opReadMetadata, hmeta]
      rw [mTry_eq_of_error _ _ _ _ _ (mBind_eq_of_error _ _ _ _ _ hread)]
      rw [if_neg (by simp [cacheMatch, hmeta]), if_pos hdir]
      rfl
    · have hread : opReadMetadata d0 st
          = (Except.ok m, st ++ [Event.readMetadata d0.name]) := by
        simp [opReadMetadata, hmeta]
      have hcnt : countE Event.isRm (st ++ [Event.readMetadata d0.name])
          = countE Event.isRm st := by
        rw [countE_append, countE_cons_neg _ _ _ rfl, countE_nil]
        omega
      by_cases hg : m.groupId = some b
      · by_cases hok : w.rmOk (countE Event.isRm st) = true
        · have hrm : opRm w d0.name (st ++ [Event.readMetadata d0.name])
              = (Except.ok (), st ++ [Event.readMetadata d0.name]
                  ++ [Event.rmDir d0.name true]) := by
            simp [opRm, hcnt, hok]
          have hbody : mBind (opReadMetadata d0) (fun m' =>
              if m'.groupId ≠ some b then mPure false
              else mBind (opRm w d0.name) (fun _ => mPure true)) st
              = (Except.ok true,
                st ++ [Event.readMetadata d0.name, Event.rmDir d0.name true]) := by
            rw [mBind_eq_of_ok _ _ _ _ _ hread]
            rw [if_neg (by simp [hg])]
            rw [mBind_eq_of_ok _ _ _ _ _ hrm]
            simp [mPure]
          rw [mTry_eq_of_ok _ _ _ _ _ hbody]
          rw [if_pos (by simp [cacheMatch, hmeta, hdir, hg]), hok]
        · rw [Bool.not_eq_true] at hok
          have hrm : opRm w d0.name (st ++ [Event.readMetadata d0.name])
              = (Except.error (), st ++ [Event.readMetadata d0.name]
                  ++ [Event.rmDir d0.name false]) := by
            simp [opRm, hcnt, hok]
          have hbody : mBind (opReadMetadata d0) (fun m' =>
              if m'.groupId ≠ some b then mPure false
              else mBind (opRm w d0.name) (fun _ => mPure true)) st
              = (Except.error (),
                st ++ [Event.readMetadata d0.name, Event.rmDir d0.name false]) := by
            rw [mBind_eq_of_ok _ _ _ _ _ hread]
            rw [if_neg (by simp [hg])]
            rw [mBind_eq_of_error _ _ _ _ _ hrm]
            simp
          rw [mTry_eq_of_error _ _ _ _ _ hbody]
          rw [if_pos (by simp [cacheMatch, hmeta, hdir, hg]), hok]
          rfl
      · have hbody : mBind (opReadMetadata d0) (fun m' =>
            if m'.groupId ≠ some b then mPure false
            else mBind (opRm w d0.name) (fun _ => mPure true)) st
            = (Except.ok false, st ++ [Event.readMetadata d0.name]) := by
          rw [mBind_eq_of_ok _ _ _ _ _ hread]
          rw [if_pos hg]
          rfl
        rw [mTry_eq_of_ok _ _ _ _ _ hbody]
        rw [if_neg (by simp [cacheMatch, hmeta, hg]), if_pos hdir]
  · rw [if_pos (by simp [hdir])]
    rw [if_neg (by simp [cacheMatch, hdir]), if_neg hdir]
    rfl

/-- A name in `rmNames` comes from a resolved `rm` call in the trace. -/
theorem rmDir_true_of_mem_rmNames (d : Trace) (n : String) (h : n ∈ rmNames d) :
    Event.rmDir n true ∈ d := by
  rw [rmNames, List.mem_filterMap] at h
  obtain ⟨e, he, hf⟩ := h
  cases e with
  | download b' p' => exact absurd hf (by simp)
  | bankSync => exact absurd hf (by simp)
  | push => exact absurd hf (by simp)
  | getAccounts => exact absurd hf (by simp)
  | updateAccount i v => exact absurd hf (by simp)
  | apiInit => exact absurd hf (by simp)
  | apiShutdown => exact absurd hf (by simp)
  | mkdirData => exact absurd hf (by simp)
  | accessCheck => exact absurd hf (by simp)
  | readdirData => exact absurd hf (by simp)
  | readMetadata n' => exact absurd hf (by simp)
  | rmDir n' ok =>
    cases ok with
    | false => exact absurd hf (by simp)
    | true =>
      simp at hf
      rw [← hf]
      exact he
  | formatCron => exact absurd hf (by simp)
  | logResetSession b' => exact absurd hf (by simp)
  | logNoCacheFound b' => exact absurd hf (by simp)
  | emergencyShutdown => exact absurd hf (by simp)

/-- The scan of the data directory: removal is attempted only on matching
directories, in scan order, and the scan stops at the first `rm` call
that resolves — so at most one directory is ever deleted, the result
reports whether some removal succeeded, and under an infallible `rm` the
deleted directory is exactly the first match. -/
theorem removalScan_spec (w : World) (b : String) (dirs : List DirEnt) (st : Trace) :
    ∃ removed d, removalScan w b dirs st = (Except.ok removed, st ++ d)
      ∧ (∀ n ok, Event.rmDir n ok ∈ d →
          ∃ ent ∈ dirs, cacheMatch b ent = true ∧ ent.name = n)
      ∧ (rmNames d).length ≤ 1
      ∧ (removed = true ↔ rmNames d ≠ [])
      ∧ ((∀ k, w.rmOk k = true) →
          rmNames d = (match dirs.find? (cacheMatch b) with
            | some ent => [ent.name]
            | none => [])) := by
  induction dirs generalizing st with
  | nil =>
    refine ⟨false, [], by simp [removalScan, mPure], ?_, ?_, ?_, ?_⟩
    · intro n ok hn
      exact absurd hn (List.not_mem_nil _)
    · exact Nat.zero_le 1
    · simp [rmNames]
    · intro hall
      rfl
  | cons d0 rest ih =>
    have hstep : removalScan w b (d0 :: rest)
        = mBind (maybeRemoveLocalBudgetCacheBySyncId w b d0)
            (fun removed => if removed then mPure true else removalScan w b rest) :=
      rfl
    by_cases hcm : cacheMatch b d0
    · by_cases hok : w.rmOk (countE Event.isRm st) = true
      · refine ⟨true, [Event.readMetadata d0.name, Event.rmDir d0.name true],
          ?_, ?_, ?_, ?_, ?_⟩
        · rw [hstep, mBind_eq_of_ok _ _ _ _ _
            (by rw [maybeRemove_spec, if_pos hcm, hok])]
          rfl
        · intro n ok hn
          rcases List.mem_cons.mp hn with h1 | h1
          · exact absurd h1 (fun h => Event.noConfusion h)
          · have h2 := List.mem_singleton.mp h1
            injection h2 with hname hok2
            exact ⟨d0, List.mem_cons_self d0 rest, hcm, hname.symm⟩
        · rw [show rmNames [Event.readMetadata d0.name, Event.rmDir d0.name true]
            = [d0.name] from rfl]
          exact Nat.le_refl 1
        · rw [show rmNames [Event.readMetadata d0.name, Event.rmDir d0.name true]
            = [d0.name] from rfl]
          simp
        · intro hall
          rw [List.find?_cons_of_pos _ hcm]
          rfl
      · rw [Bool.not_eq_true] at hok
        obtain ⟨removed, drest, hrec, hmemr, hlenr, hiffr, hallr⟩ :=
          ih (st ++ [Event.readMetadata d0.name, Event.rmDir d0.name false])
        refine ⟨removed,
          Event.readMetadata d0.name :: Event.rmDir d0.name false :: drest,
          ?_, ?_, ?_, ?_, ?_⟩
        · rw [hstep, mBind_eq_of_ok _ _ _ _ _
            (by rw [maybeRemove_spec, if_pos hcm, hok])]
          rw [show (if false then mPure true else removalScan w b rest)
              (st ++ [Event.readMetadata d0.name, Event.rmDir d0.name false])
              = removalScan w b rest
                  (st ++ [Event.readMetadata d0.name, Event.rmDir d0.name false])
              from rfl]
          rw [hrec]
          simp
        · intro n ok hn
          rcases List.mem_cons.mp hn with h1 | h1
          · exact absurd h1 (fun h => Event.noConfusion h)
          · rcases List.mem_cons.mp h1 with h2 | h2
            · injection h2 with hname hok2
              exact ⟨d0, List.mem_cons_self d0 rest, hcm, hname.symm⟩
            · obtain ⟨ent, hent, hm, hname⟩ := hmemr n ok h2
              exact ⟨ent, List.mem_cons_of_mem _ hent, hm, hname⟩
        · rw [show rmNames (Event.readMetadata d0.name
              :: Event.rmDir d0.name false :: drest) = rmNames drest from rfl]
          exact hlenr
        · rw [show rmNames (Event.readMetadata d0.name
              :: Event.rmDir d0.name false :: drest) = rmNames drest from rfl]
          exact hiffr
        · intro hall
          exact absurd (hall (countE Event.isRm st)) (by simp [hok])
    · by_cases hdir : d0.isDir
      · obtain ⟨removed, drest, hrec, hmemr, hlenr, hiffr, hallr⟩ :=
          ih (st ++ [Event.readMetadata d0.name])
        refine ⟨removed, Event.readMetadata d0.name :: drest, ?_, ?_, ?_, ?_, ?_⟩
        · rw [hstep, mBind_eq_of_ok _ _ _ _ _
            (by rw [maybeRemove_spec, if_neg hcm, if_pos hdir])]
          rw [show (if false then mPure true else removalScan w b rest)
              (st ++ [Event.readMetadata d0.name])
              = removalScan w b rest (st ++ [Event.readMetadata d0.name]) from rfl]
          rw [hrec]
          simp
        · intro n ok hn
          rcases List.mem_cons.mp hn with h1 | h1
          · exact absurd h1 (fun h => Event.noConfusion h)
          · obtain ⟨ent, hent, hm, hname⟩ := hmemr n ok h1
            exact ⟨ent, List.mem_cons_of_mem _ hent, hm, hname⟩
        · rw [show rmNames (Event.readMetadata d0.name :: drest)
            = rmNames drest from rfl]
          exact hlenr
        · rw [show rmNames (Event.readMetadata d0.name :: drest)
            = rmNames drest from rfl]
          exact hiffr
        · intro hall
          rw [List.find?_cons_of_neg _ hcm,
            show rmNames (Event.readMetadata d0.name :: drest)
              = rmNames drest from rfl]
          exact hallr hall
      · obtain ⟨removed, drest, hrec, hmemr, hlenr, hiffr, hallr⟩ := ih st
        refine ⟨removed, drest, ?_, ?_, hlenr, hiffr, ?_⟩
        · rw [hstep, mBind_eq_of_ok _ _ _ _ _
            (by rw [maybeRemove_spec, if_neg hcm, if_neg hdir])]
          rw [show (if false then mPure true else removalScan w b rest) st
              = removalScan w b rest st from rfl]
          exact hrec
        · intro n ok hn
          obtain ⟨ent, hent, hm, hname⟩ := hmemr n ok hn
          exact ⟨ent, List.mem_cons_of_mem _ hent, hm, hname⟩
        · intro hall
          rw [List.find?_cons_of_neg _ hcm]
          exact hallr hall

/-- `rmNames` splits over append. -/
theorem rmNames_append (l1 l2 : Trace) :
    rmNames (l1 ++ l2) = rmNames l1 ++ rmNames l2 := by
  simp [rmNames, List.filterMap_append]

theorem rmNames_readdir : rmNames [Event.readdirData] = [] := rfl

theorem rmNames_nocache (b : String) : rmNames [Event.logNoCacheFound b] = [] := rfl

/-- C4 (amended): the retry-path cache eviction resolves on every input;
removal is only ever attempted on directories whose readable metadata
`groupId` equals the failing sync id, so entries with non-matching or
unreadable metadata are untouched; at most one directory is ever deleted
because the scan stops at the first `rm` call that resolves — under an
infallible `rm` that is exactly the first matching entry; and when the
listing succeeds but nothing matches, no removal is attempted, nothing is
deleted, and the no-cache warning is logged. -/
theorem c4_cache_eviction_frame (w : World) (b : String) (st : Trace) :
    ∃ d, removeLocalBudgetCacheBySyncId w b st = (Except.ok (), st ++ d)
      ∧ (rmNames d).length ≤ 1
      ∧ (∀ n ok, Event.rmDir n ok ∈ d → ∃ dirs ent,
          w.readdirRes (countE Event.isReaddir st) = some dirs
          ∧ ent ∈ dirs ∧ cacheMatch b ent = true ∧ ent.name = n)
      ∧ ((∀ k, w.rmOk k = true) → ∀ dirs,
          w.readdirRes (countE Event.isReaddir st) = some dirs →
          rmNames d = (match dirs.find? (cacheMatch b) with
            | some ent => [ent.name]
            | none => []))
      ∧ (∀ dirs, w.readdirRes (countE Event.isReaddir st) = some dirs →
          dirs.find? (cacheMatch b) = none →
          rmNames d = [] ∧ (∀ n ok, Event.rmDir n ok ∉ d)
          ∧ Event.logNoCacheFound b ∈ d) := by
  unfold removeLocalBudgetCacheBySyncId
  rcases hrd : w.readdirRes (countE Event.isReaddir st) with _ | dirs
  · have hop : opReaddir w st = (Except.error (), st ++ [Event.readdirData]) := by
      simp [opReaddir, hrd]
    refine ⟨[Event.readdirData], ?_, by rw [rmNames_readdir]; exact Nat.zero_le 1,
      ?_, ?_, ?_⟩
    · rw [mTry_eq_of_error _ _ _ _ _ (mBind_eq_of_error _ _ _ _ _ hop)]
      rfl
    · intro n ok hn
      have h1 := List.mem_singleton.mp hn
      exact absurd h1 (fun h => Event.noConfusion h)
    · intro hall dirs hdirs
      exact absurd hdirs (by simp)
    · intro dirs hdirs
      exact absurd hdirs (by simp)
  · have hop : opReaddir w st = (Except.ok dirs, st ++ [Event.readdirData]) := by
      simp [opReaddir, hrd]
    obtain ⟨removed, dscan, hscan, hmem, hlen, hiff, hall⟩ :=
      removalScan_spec w b dirs (st ++ [Event.readdirData])
    cases removed with
    | true =>
      have hbody : mBind (opReaddir w) (fun dirs' =>
          mBind (removalScan w b dirs') (fun removed' =>
            if removed' then mPure () else opLogNoCacheFound b)) st
          = (Except.ok (), st ++ [Event.readdirData] ++ dscan) := by
        rw [mBind_eq_of_ok _ _ _ _ _ hop, mBind_eq_of_ok _ _ _ _ _ hscan]
        rfl
      refine ⟨Event.readdirData :: dscan, ?_, ?_, ?_, ?_, ?_⟩
      · rw [mTry_eq_of_ok _ _ _ _ _ hbody]
        simp
      · rw [show rmNames (Event.readdirData :: dscan) = rmNames dscan from rfl]
        exact hlen
      · intro n ok hn
        rcases List.mem_cons.mp hn with h1 | h1
        · exact absurd h1 (fun h => Event.noConfusion h)
        · obtain ⟨ent, hent, hm, hname⟩ := hmem n ok h1
          exact ⟨dirs, ent, rfl, hent, hm, hname⟩
      · intro hallrm dirs' hdirs'
        rw [Option.some.injEq] at hdirs'
        subst hdirs'
        rw [show rmNames (Event.readdirData :: dscan) = rmNames dscan from rfl]
        exact hall hallrm
      · intro dirs' hdirs' hnone
        rw [Option.some.injEq] at hdirs'
        subst hdirs'
        exfalso
        have hne : rmNames dscan ≠ [] := hiff.mp rfl
        obtain ⟨n, hn⟩ := List.exists_mem_of_ne_nil _ hne
        obtain ⟨ent, hent, hm, _⟩ :=
          hmem n true (rmDir_true_of_mem_rmNames dscan n hn)
        have hsome : (dirs.find? (cacheMatch b)).isSome :=
          List.find?_isSome.mpr ⟨ent, hent, hm⟩
        rw [hnone] at hsome
        exact absurd hsome (by simp)
    | false =>
      have hbody : mBind (opReaddir w) (fun dirs' =>
          mBind (removalScan w b dirs') (fun removed' =>
            if removed' then mPure () else opLogNoCacheFound b)) st
          = (Except.ok (),
            st ++ [Event.readdirData] ++ dscan ++ [Event.logNoCacheFound b]) := by
        rw [mBind_eq_of_ok _ _ _ _ _ hop, mBind_eq_of_ok _ _ _ _ _ hscan]
        rw [show (if false then mPure () else opLogNoCacheFound b)
            (st ++ [Event.readdirData] ++ dscan)
            = opLogNoCacheFound b (st ++ [Event.readdirData] ++ dscan) from rfl]
        rfl
      have hrmcomp : rmNames (Event.readdirData
          :: (dscan ++ [Event.logNoCacheFound b])) = rmNames dscan := by
        rw [show rmNames (Event.readdirData :: (dscan ++ [Event.logNoCacheFound b]))
            = rmNames (dscan ++ [Event.logNoCacheFound b]) from rfl]
        rw [rmNames_append, rmNames_nocache]
        simp
      refine ⟨Event.readdirData :: (dscan ++ [Event.logNoCacheFound b]),
        ?_, ?_, ?_, ?_, ?_⟩
      · rw [mTry_eq_of_ok _ _ _ _ _ hbody]
        simp
      · rw [hrmcomp]
        exact hlen
      · intro n ok hn
        rcases List.mem_cons.mp hn with h1 | h1
        · exact absurd h1 (fun h => Event.noConfusion h)
        · rcases List.mem_append.mp h1 with h2 | h2
          · obtain ⟨ent, hent, hm, hname⟩ := hmem n ok h2
            exact ⟨dirs, ent, rfl, hent, hm, hname⟩
          · have h3 := List.mem_singleton.mp h2
            exact absurd h3 (fun h => Event.noConfusion h)
      · intro hallrm dirs' hdirs'
        rw [Option.some.injEq] at hdirs'
        subst hdirs'
        rw [hrmcomp]
        exact hall hallrm
      · intro dirs' hdirs' hnone
        rw [Option.some.injEq] at hdirs'
        subst hdirs'
        have hnorm : ∀ n ok, Event.rmDir n ok ∉ dscan := by
          intro n ok hev
          obtain ⟨ent, hent, hm, _⟩ := hmem n ok hev
          have hsome : (dirs.find? (cacheMatch b)).isSome :=
            List.find?_isSome.mpr ⟨ent, hent, hm⟩
          rw [hnone] at hsome
          exact absurd hsome (by simp)
        have hrmnil : rmNames dscan = [] := by
          by_contra hne
          obtain ⟨n, hn⟩ := List.exists_mem_of_ne_nil _ hne
          exact hnorm n true (rmDir_true_of_mem_rmNames dscan n hn)
        refine ⟨by rw [hrmcomp]; exact hrmnil, ?_, by simp⟩
        intro n ok hn
        rcases List.mem_cons.mp hn with h1 | h1
        · exact absurd h1 (fun h => Event.noConfusion h)
        · rcases List.mem_append.mp h1 with h2 | h2
          · exact hnorm n ok h2
          · have h3 := List.mem_singleton.mp h2
            exact absurd h3 (fun h => Event.noConfusion h)


theorem emitOp_snd (e : Event) (okf : Trace → Bool) (st : Trace) :
    (emitOp e okf st).2 = st ++ [e] := rfl

/-- One CRDT row update: always resolves with the success flag of the
underlying update call, emitting exactly one update event carrying the
row's balance value. -/
theorem syncAccountBalanceToCRDT_spec (w : World) (a : AccountRow) (st : Trace) :
    syncAccountBalanceToCRDT w a st
      = (Except.ok (w.updateOk (countE Event.isUpdate st)),
        st ++ [Event.updateAccount a.id a.balance]) := by
  unfold syncAccountBalanceToCRDT opUpdateAccount
  by_cases hup : w.updateOk (countE Event.isUpdate st) = true
  · have hop : emitOp (Event.updateAccount a.id a.balance)
        (fun st' => w.updateOk (countE Event.isUpdate st')) st
        = (Except.ok (), st ++ [Event.updateAccount a.id a.balance]) := by
      simp [emitOp, hup]
    rw [mTry_eq_of_ok _ _ _ _ _ (by rw [mBind_eq_of_ok _ _ _ _ _ hop]; rfl), hup]
  · have hop : emitOp (Event.updateAccount a.id a.balance)
        (fun st' => w.updateOk (countE Event.isUpdate st')) st
        = (Except.error (), st ++ [Event.updateAccount a.id a.balance]) := by
      simp [emitOp, hup]
    rw [mTry_eq_of_error _ _ _ _ _ (mBind_eq_of_error _ _ _ _ _ hop)]
    rw [Bool.not_eq_true] at hup
    rw [hup]
    rfl

/-- The reconciliation loop: emits exactly one update event per account
with a present numeric balance, in order, and returns `false` (no errors)
iff it started clean and every issued update succeeded. -/
theorem syncBalancesLoop_spec (w : World) (accs : List AccountRow) (acc : Bool)
    (st : Trace) :
    ∃ res, syncBalancesLoop w accs acc st = (Except.ok res, st ++ updatesOf accs)
      ∧ (res = false ↔ (acc = false ∧ ∀ k < (updatesOf accs).length,
          w.updateOk (countE Event.isUpdate st + k) = true)) := by
  induction accs generalizing acc st with
  | nil =>
    refine ⟨acc, by simp [syncBalancesLoop, mPure, updatesOf], ?_⟩
    simp [updatesOf]
  | cons a rest ih =>
    by_cases hb : a.balance.isSome
    · have hloop : syncBalancesLoop w (a :: rest) acc
          = mBind (syncAccountBalanceToCRDT w a) (fun ok =>
              syncBalancesLoop w rest (acc || !ok)) := by
        rw [show syncBalancesLoop w (a :: rest) acc
            = if a.balance.isSome then
                mBind (syncAccountBalanceToCRDT w a) (fun ok =>
                  syncBalancesLoop w rest (acc || !ok))
              else syncBalancesLoop w rest acc from rfl]
        rw [if_pos hb]
      have hupd : updatesOf (a :: rest)
          = Event.updateAccount a.id a.balance :: updatesOf rest := by
        simp [updatesOf, hb]
      have hcnt : countE Event.isUpdate (st ++ [Event.updateAccount a.id a.balance])
          = countE Event.isUpdate st + 1 := by
        rw [countE_append, countE_cons_pos _ _ _ rfl, countE_nil]
      obtain ⟨res, hrec, hiff⟩ :=
        ih (acc || !(w.updateOk (countE Event.isUpdate st)))
          (st ++ [Event.updateAccount a.id a.balance])
      refine ⟨res, ?_, ?_⟩
      · rw [hloop, mBind_eq_of_ok _ _ _ _ _ (syncAccountBalanceToCRDT_spec w a st),
          hrec, hupd]
        simp
      · rw [hiff, hcnt, hupd]
        constructor
        · rintro ⟨hacc, hall⟩
          have hacc2 : acc = false ∧ w.updateOk (countE Event.isUpdate st) = true := by
            rcases Bool.or_eq_false_iff.mp hacc with ⟨h1, h2⟩
            rw [Bool.not_eq_false'] at h2
            exact ⟨h1, h2⟩
          refine ⟨hacc2.1, ?_⟩
          intro k hk
          cases k with
          | zero =>
            simpa using hacc2.2
          | succ j =>
            have hj : j < (updatesOf rest).length := by
              simp at hk
              omega
            have := hall j hj
            have harith : countE Event.isUpdate st + 1 + j
                = countE Event.isUpdate st + (j + 1) := by omega
            rw [harith] at this
            exact this
        · rintro ⟨hacc, hall⟩
          have hok0 : w.updateOk (countE Event.isUpdate st) = true := by
            have := hall 0 (by simp)
            simpa using this
          refine ⟨?_, ?_⟩
          · rw [Bool.or_eq_false_iff]
            exact ⟨hacc, by rw [hok0]; rfl⟩
          · intro k hk
            have := hall (k + 1) (by simp; omega)
            have harith : countE Event.isUpdate st + (k + 1)
                = countE Event.isUpdate st + 1 + k := by omega
            rw [harith] at this
            exact this
    · have hloop : syncBalancesLoop w (a :: rest) acc
          = syncBalancesLoop w rest acc := by
        rw [show syncBalancesLoop w (a :: rest) acc
            = if a.balance.isSome then
                mBind (syncAccountBalanceToCRDT w a) (fun ok =>
                  syncBalancesLoop w rest (acc || !ok))
              else syncBalancesLoop w rest acc from rfl]
        rw [if_neg hb]
      have hupd : updatesOf (a :: rest) = updatesOf rest := by
        simp [updatesOf, hb]
      obtain ⟨res, hrec, hiff⟩ := ih acc st
      exact ⟨res, by rw [hloop, hrec, hupd], by rw [hiff, hupd]⟩

/-- C6: with a fixed account list read from the store, reconciliation
issues exactly one CRDT update per account with a present numeric balance
— carrying exactly that balance — and none for null balances; a read
failure returns `false` with zero updates; the flag is `true` iff the
read succeeded and every issued update succeeded; and when bank-sync
succeeds the push call is still made afterwards, whatever reconciliation
returned. -/
theorem c6_balance_reconciliation (w : World) (st : Trace) :
    (∀ accs, w.getAccountsRes (countE Event.isGetAccounts st) = some accs →
      ∃ flag, syncAccountBalancesToCRDT w st
          = (Except.ok flag, st ++ Event.getAccounts :: updatesOf accs)
        ∧ (flag = true ↔ ∀ k < (updatesOf accs).length,
            w.updateOk (countE Event.isUpdate st + k) = true))
    ∧ (w.getAccountsRes (countE Event.isGetAccounts st) = none →
        syncAccountBalancesToCRDT w st = (Except.ok false, st ++ [Event.getAccounts]))
    ∧ (∀ st1, w.bankSyncOk (countE Event.isBankSync st1) = true →
        ∃ d, (syncAllAccounts w st1).2 = st1 ++ Event.bankSync :: d
          ∧ Event.push ∈ d) := by
  have hreconcile : ∀ st', ∃ flag d', syncAccountBalancesToCRDT w st'
      = (Except.ok flag, st' ++ Event.getAccounts :: d') := by
    intro st'
    rcases hga : w.getAccountsRes (countE Event.isGetAccounts st') with _ | accs
    · have hop : opGetAccounts w st'
          = (Except.error (), st' ++ [Event.getAccounts]) := by
        simp [opGetAccounts, hga]
      have hgs : getAccountsForBalanceSync w st'
          = (Except.ok ([], true), st' ++ [Event.getAccounts]) := by
        unfold getAccountsForBalanceSync
        rw [mTry_eq_of_error _ _ _ _ _ (mBind_eq_of_error _ _ _ _ _ hop)]
        rfl
      refine ⟨false, [], ?_⟩
      unfold syncAccountBalancesToCRDT
      rw [mBind_eq_of_ok _ _ _ _ _ hgs]
      rfl
    · have hop : opGetAccounts w st'
          = (Except.ok accs, st' ++ [Event.getAccounts]) := by
        simp [opGetAccounts, hga]
      have hgs : getAccountsForBalanceSync w st'
          = (Except.ok (accs, false), st' ++ [Event.getAccounts]) := by
        unfold getAccountsForBalanceSync
        rw [mTry_eq_of_ok _ _ _ _ _ (by rw [mBind_eq_of_ok _ _ _ _ _ hop]; rfl)]
      obtain ⟨res, hrec, hiff⟩ :=
        syncBalancesLoop_spec w accs false (st' ++ [Event.getAccounts])
      refine ⟨!res, updatesOf accs, ?_⟩
      unfold syncAccountBalancesToCRDT
      rw [mBind_eq_of_ok _ _ _ _ _ hgs]
      rw [show ((if (accs, false).2 then mPure false
          else mBind (syncBalancesLoop w (accs, false).1 false) (fun hasErrors =>
            mPure (!hasErrors))) : M Bool)
          = mBind (syncBalancesLoop w accs false) (fun hasErrors =>
              mPure (!hasErrors)) from rfl]
      rw [mBind_eq_of_ok _ _ _ _ _ hrec]
      simp [mPure]
  refine ⟨?_, ?_, ?_⟩
  · intro accs hga
    have hop : opGetAccounts w st = (Except.ok accs, st ++ [Event.getAccounts]) := by
      simp [opGetAccounts, hga]
    have hgs : getAccountsForBalanceSync w st
        = (Except.ok (accs, false), st ++ [Event.getAccounts]) := by
      unfold getAccountsForBalanceSync
      rw [mTry_eq_of_ok _ _ _ _ _ (by rw [mBind_eq_of_ok _ _ _ _ _ hop]; rfl)]
    obtain ⟨res, hrec, hiff⟩ :=
      syncBalancesLoop_spec w accs false (st ++ [Event.getAccounts])
    have hcnt : countE Event.isUpdate (st ++ [Event.getAccounts])
        = countE Event.isUpdate st := by
      rw [countE_append, countE_cons_neg _ _ _ rfl, countE_nil]
      omega
    refine ⟨!res, ?_, ?_⟩
    · unfold syncAccountBalancesToCRDT
      rw [mBind_eq_of_ok _ _ _ _ _ hgs]
      rw [show ((if (accs, false).2 then mPure false
          else mBind (syncBalancesLoop w (accs, false).1 false) (fun hasErrors =>
            mPure (!hasErrors))) : M Bool)
          = mBind (syncBalancesLoop w accs false) (fun hasErrors =>
              mPure (!hasErrors)) from rfl]
      rw [mBind_eq_of_ok _ _ _ _ _ hrec]
      simp [mPure]
    · rw [Bool.not_eq_true']
      rw [hiff]
      simp [hcnt]
  · intro hga
    have hop : opGetAccounts w st = (Except.error (), st ++ [Event.getAccounts]) := by
      simp [opGetAccounts, hga]
    have hgs : getAccountsForBalanceSync w st
        = (Except.ok ([], true), st ++ [Event.getAccounts]) := by
      unfold getAccountsForBalanceSync
      rw [mTry_eq_of_error _ _ _ _ _ (mBind_eq_of_error _ _ _ _ _ hop)]
      rfl
    unfold syncAccountBalancesToCRDT
    rw [mBind_eq_of_ok _ _ _ _ _ hgs]
    rfl
  · intro st1 hbs
    have hop : opBankSync w st1 = (Except.ok (), st1 ++ [Event.bankSync]) := by
      simp [opBankSync, emitOp, hbs]
    obtain ⟨flag, d', hrc⟩ := hreconcile (st1 ++ [Event.bankSync])
    have hba : syncBankAccounts w st1
        = (Except.ok (), st1 ++ [Event.bankSync] ++ Event.getAccounts :: d') := by
      unfold syncBankAccounts
      rw [mBind_eq_of_ok _ _ _ _ _ hop, mBind_eq_of_ok _ _ _ _ _ hrc]
      rfl
    refine ⟨(Event.getAccounts :: d') ++ [Event.push], ?_, by simp⟩
    rw [show syncAllAccounts w st1
        = mBind (syncBankAccounts w) (fun _ => syncBudgetToServer w) st1 from rfl]
    rw [mBind_eq_of_ok _ _ _ _ _ hba]
    rw [show syncBudgetToServer w = opPush w from rfl]
    rw [show opPush w = emitOp Event.push
        (fun st' => w.pushOk (countE Event.isPush st')) from rfl]
    rw [emitOp_snd]
    simp

/-- Witness for C6: with accounts `a1` (balance 5) and `a2` (null),
reconciliation issues exactly the one update for `a1` carrying 5. -/
theorem c6_witness :
    updatesOf demoAccounts = [Event.updateAccount "a1" (some 5)]
    ∧ ∃ flag, syncAccountBalancesToCRDT wWithAccounts []
        = (Except.ok flag, [] ++ Event.getAccounts :: updatesOf demoAccounts)
        ∧ (flag = true ↔ ∀ k < (updatesOf demoAccounts).length,
            wWithAccounts.updateOk (countE Event.isUpdate [] + k) = true) :=
  ⟨rfl, (c6_balance_reconciliation wWithAccounts []).1 demoAccounts rfl⟩

/-- Counterexample to C4 as stated: with two cached directories matching
sync id `s1` and the first `rm` call rejecting, the eviction attempts two
removals and the directory actually deleted is `dirE` — a later matching
directory, not the first scanned match `dirA`. -/
theorem c4_counterexample :
    removeLocalBudgetCacheBySyncId wTwoMatching "s1" []
      = (Except.ok (),
        [Event.readdirData, Event.readMetadata "dirA", Event.rmDir "dirA" false,
         Event.readMetadata "dirE", Event.rmDir "dirE" true])
    ∧ ([dirMatching, dirMatchingLater].find? (cacheMatch "s1")).map DirEnt.name
        = some "dirA"
    ∧ rmNames [Event.readdirData, Event.readMetadata "dirA",
        Event.rmDir "dirA" false, Event.readMetadata "dirE",
        Event.rmDir "dirE" true] = ["dirE"]
    ∧ countE Event.isRm [Event.readdirData, Event.readMetadata "dirA",
        Event.rmDir "dirA" false, Event.readMetadata "dirE",
        Event.rmDir "dirE" true] = 2
    ∧ "dirE" ≠ "dirA" :=
  ⟨rfl, rfl, rfl, rfl, by decide⟩

/-- Witness for C4 (amended): a data directory holding an unrelated
budget, a corrupt entry, and the matching budget in scan order, with `rm`
resolving — the scan reads all three and deletes exactly the matching
directory `dirA`. -/
theorem c4_witness :
    removeLocalBudgetCacheBySyncId wThreeDirs "s1" []
      = (Except.ok (), [Event.readdirData, Event.readMetadata "dirB",
          Event.readMetadata "dirC", Event.readMetadata "dirA",
          Event.rmDir "dirA" true])
    ∧ ∃ d, removeLocalBudgetCacheBySyncId wThreeDirs "s1" [] = (Except.ok (), [] ++ d)
        ∧ (rmNames d).length ≤ 1
        ∧ (∀ n ok, Event.rmDir n ok ∈ d → ∃ dirs ent,
            wThreeDirs.readdirRes (countE Event.isReaddir []) = some dirs
            ∧ ent ∈ dirs ∧ cacheMatch "s1" ent = true ∧ ent.name = n)
        ∧ ((∀ k, wThreeDirs.rmOk k = true) → ∀ dirs,
            wThreeDirs.readdirRes (countE Event.isReaddir []) = some dirs →
            rmNames d = (match dirs.find? (cacheMatch "s1") with
              | some ent => [ent.name]
              | none => []))
        ∧ (∀ dirs, wThreeDirs.readdirRes (countE Event.isReaddir []) = some dirs →
            dirs.find? (cacheMatch "s1") = none →
            rmNames d = [] ∧ (∀ n ok, Event.rmDir n ok ∉ d)
            ∧ Event.logNoCacheFound "s1" ∈ d) :=
  ⟨rfl, c4_cache_eviction_frame wThreeDirs "s1" []⟩

/-- C10: when the first attempt fails and the retry reset's
re-initialization fails, that error escapes `downloadAndSyncBudget` — the
budget ends with a single download call, strictly fewer than MAX — and
the loop records the budget as failed and moves on; shutdown and
cache-eviction errors inside the reset are swallowed (the reset's outcome
is exactly its `createDataDirAndInitApi` outcome). -/
theorem c10_reset_init_failure_propagates (w : World) (cfg : Config) (b : String)
    (index : Nat) (st st1 st2 : Trace) (u1 u2 : Unit)
    (h1 : mBind (opDownload w b (passwordAt cfg index))
        (fun _ => syncAllAccounts w) st = (Except.error u1, st1))
    (h2 : resetApiSessionForRetry w b st1 = (Except.error u2, st2)) :
    downloadAndSyncBudget w cfg b index st = (Except.error u2, st2)
    ∧ countE (Event.isDownloadOf b) st2 = countE (Event.isDownloadOf b) st + 1
    ∧ 1 < MAX_BUDGET_SYNC_ATTEMPTS
    ∧ (∀ rest failed, budgetsLoop w cfg ((index, b) :: rest) failed st
        = budgetsLoop w cfg rest (failed ++ [b]) st2)
    ∧ (∃ stMid, resetApiSessionForRetry w b st1 = createDataDirAndInitApi w stMid)
    ∧ (∀ st', ∃ st'', removeLocalBudgetCacheBySyncId w b st' = (Except.ok (), st''))
    ∧ (∀ st', ∃ st'', mTry (opShutdown w) (mPure ()) st' = (Except.ok (), st'')) := by
  have hrun : downloadAndSyncBudget w cfg b index st = (Except.error u2, st2) := by
    rw [show downloadAndSyncBudget w cfg b index
        = syncAttemptLoop w b (passwordAt cfg index) 2 from rfl]
    rw [syncAttemptLoop_two]
    rw [mTry_eq_of_error _ _ _ _ _ h1]
    exact mBind_eq_of_error _ _ _ _ _ h2
  refine ⟨hrun, ?_, by decide, ?_, reset_result w b st1, ?_, ?_⟩
  · obtain ⟨r, ds, hA, hdsP⟩ := attempt_delta w b (passwordAt cfg index) st
    rw [h1, Prod.mk.injEq] at hA
    obtain ⟨hr, hst1⟩ := hA
    obtain ⟨r2, dr, hR, hdrP⟩ := reset_delta w b st1
    rw [h2, Prod.mk.injEq] at hR
    obtain ⟨hr2, hst2⟩ := hR
    rw [hst2, hst1]
    rw [countE_append, countE_append,
      countE_cons_pos _ _ _ (by simp [Event.isDownloadOf]),
      countE_cons_neg _ _ _ rfl,
      countE_eq_zero_of _ _ (fun e he => neutral_isDownloadOf b e (hdsP e he)),
      countE_eq_zero_of _ _ (fun e he => neutral_isDownloadOf b e (hdrP e he))]
  · intro rest failed
    exact budgetsLoop_cons_error w cfg index b rest failed st st2 u2 hrun
  · intro st'
    exact removeLocalBudgetCacheBySyncId_ok w b st'
  · intro st'
    exact mTry_mPureUnit_ok (opShutdown w) st'

/-- Witness for C10: with downloads and `init` failing, budget `b1` makes
one download, its reset's `init` failure propagates, and the budget is
recorded as failed with the trace ending at the failed re-init. -/
theorem c10_witness :
    downloadAndSyncBudget wInitFailsOnReset cfgOneBudget "b1" 0 []
      = (Except.error (),
        [Event.download "b1" none, Event.logResetSession "b1", Event.apiShutdown,
         Event.readdirData, Event.logNoCacheFound "b1", Event.mkdirData,
         Event.accessCheck, Event.apiInit])
    ∧ countE (Event.isDownloadOf "b1")
        [Event.download "b1" none, Event.logResetSession "b1", Event.apiShutdown,
         Event.readdirData, Event.logNoCacheFound "b1", Event.mkdirData,
         Event.accessCheck, Event.apiInit]
      = countE (Event.isDownloadOf "b1") [] + 1
    ∧ 1 < MAX_BUDGET_SYNC_ATTEMPTS := by
  have h := c10_reset_init_failure_propagates wInitFailsOnReset cfgOneBudget "b1" 0
    [] [Event.download "b1" none]
    [Event.download "b1" none, Event.logResetSession "b1", Event.apiShutdown,
     Event.readdirData, Event.logNoCacheFound "b1", Event.mkdirData,
     Event.accessCheck, Event.apiInit]
    () () rfl rfl
  exact ⟨h.1, h.2.1, h.2.2.1⟩

/-- Counterexample to C5 as stated: with the permission check failing, the
setup step rejects before `init`, yet the failure does not propagate as
startup-fatal — the cycle boundary and the entry point both resolve. -/
theorem c5_counterexample :
    createDataDirAndInitApi wNoPermission []
      = (Except.error (), [Event.mkdirData, Event.accessCheck])
    ∧ runSyncCycle wNoPermission cfgTwoBudgets []
      = (Except.ok (), [Event.mkdirData, Event.accessCheck])
    ∧ (sync wNoPermission cfgTwoBudgets []).1 = Except.ok ()
    ∧ Event.apiInit ∉ (sync wNoPermission cfgTwoBudgets []).2
    ∧ countE Event.isDownload (sync wNoPermission cfgTwoBudgets []).2 = 0 := by
  refine ⟨rfl, rfl, rfl, ?_, rfl⟩
  decide

/-- C5 (amended): the data directory is created and permission-checked
before `init`; a permission-check failure prevents `init` and aborts the
cycle's sync work, propagating out of the setup step — but like every
other sync failure it is caught at the cycle boundary and only logged,
and the cycle entry point still resolves. -/
theorem c5_amended_permission_failure_contained (w : World) (cfg : Config)
    (st : Trace)
    (hmk : w.mkdirOk (countE Event.isMkdir st) = true)
    (hac : w.accessOk (countE Event.isAccess st) = false) :
    createDataDirAndInitApi w st
      = (Except.error (), st ++ [Event.mkdirData, Event.accessCheck])
    ∧ runSyncCycle w cfg st
      = (Except.ok (), st ++ [Event.mkdirData, Event.accessCheck])
    ∧ (sync w cfg st).1 = Except.ok ()
    ∧ (∀ st', w.mkdirOk (countE Event.isMkdir st') = true →
        w.accessOk (countE Event.isAccess st') = true →
        createDataDirAndInitApi w st'
          = opInit w (st' ++ [Event.mkdirData, Event.accessCheck])) := by
  have hmkop : opMkdir w st = (Except.ok (), st ++ [Event.mkdirData]) := by
    simp [opMkdir, emitOp, hmk]
  have hcacc : countE Event.isAccess (st ++ [Event.mkdirData])
      = countE Event.isAccess st := by
    rw [countE_append, countE_cons_neg _ _ _ rfl, countE_nil]
    omega
  have hacop : opAccess w (st ++ [Event.mkdirData])
      = (Except.error (), st ++ [Event.mkdirData, Event.accessCheck]) := by
    simp [opAccess, emitOp, hcacc, hac]
  have hsetup : createDataDirAndInitApi w st
      = (Except.error (), st ++ [Event.mkdirData, Event.accessCheck]) := by
    unfold createDataDirAndInitApi testDataDirPermission
    rw [mBind_eq_of_ok _ _ _ _ _ hmkop]
    exact mBind_eq_of_error _ _ _ _ _ hacop
  have hcycle : runSyncCycle w cfg st
      = (Except.ok (), st ++ [Event.mkdirData, Event.accessCheck]) := by
    unfold runSyncCycle
    rw [mTry_eq_of_error _ _ _ _ _ (mBind_eq_of_error _ _ _ _ _ hsetup)]
    rfl
  refine ⟨hsetup, hcycle, sync_always_ok w cfg st, ?_⟩
  intro st' hmk' hac'
  have hmkop' : opMkdir w st' = (Except.ok (), st' ++ [Event.mkdirData]) := by
    simp [opMkdir, emitOp, hmk']
  have hcacc' : countE Event.isAccess (st' ++ [Event.mkdirData])
      = countE Event.isAccess st' := by
    rw [countE_append, countE_cons_neg _ _ _ rfl, countE_nil]
    omega
  have hacop' : opAccess w (st' ++ [Event.mkdirData])
      = (Except.ok (), st' ++ [Event.mkdirData, Event.accessCheck]) := by
    simp [opAccess, emitOp, hcacc', hac']
  unfold createDataDirAndInitApi testDataDirPermission
  rw [mBind_eq_of_ok _ _ _ _ _ hmkop']
  rw [mBind_eq_of_ok _ _ _ _ _ hacop']

/-- Witness for C5 (amended): the permission-failing world at the empty
trace. -/
theorem c5_witness :
    createDataDirAndInitApi wNoPermission []
      = (Except.error (), [] ++ [Event.mkdirData, Event.accessCheck])
    ∧ runSyncCycle wNoPermission cfgOneBudget []
      = (Except.ok (), [] ++ [Event.mkdirData, Event.accessCheck])
    ∧ (sync wNoPermission cfgOneBudget []).1 = Except.ok () := by
  have h := c5_amended_permission_failure_contained wNoPermission cfgOneBudget []
    (by decide) (by decide)
  exact ⟨h.1, h.2.1, h.2.2.1⟩

/-- Counterexample to C1 as stated: with one readable and one unreadable
subdirectory, `getSyncIdMaps` escalates an error instead of returning the
map of the readable remainder (which it does produce when the broken
directory is absent). -/
theorem c1_counterexample :
    getSyncIdMaps [dirMatching, dirBroken] = Except.error ()
    ∧ getSyncIdMaps [dirMatching] = Except.ok [("s1", some "localA")] := by
  constructor <;> rfl

/-- The `Promise.all` metadata batch fails iff some read fails. -/
theorem readAllMetadata_none_iff (l : List DirEnt) :
    readAllMetadata l = none ↔ ∃ d ∈ l, d.metadata = none := by
  induction l with
  | nil => simp [readAllMetadata]
  | cons d0 rest ih =>
    rw [show readAllMetadata (d0 :: rest)
        = (match d0.metadata, readAllMetadata rest with
          | some m, some ms => some (m :: ms)
          | _, _ => none) from rfl]
    rcases hm : d0.metadata with _ | m
    · simp [hm]
    · rcases hr : readAllMetadata rest with _ | ms
      · rw [hr] at ih
        simp [hm, ih.mp rfl]
      · rw [hr] at ih
        simp only
        constructor
        · intro h
          exact absurd h (by simp)
        · rintro ⟨d, hd, hdm⟩
          rcases List.mem_cons.mp hd with h1 | h1
          · rw [h1, hm] at hdm
            exact absurd hdm (by simp)
          · have : (some ms : Option (List LocalBudgetMetadata)) = none :=
              hr ▸ ih.mpr ⟨d, h1, hdm⟩
            exact absurd this (by simp)

/-- C1 (amended): when any first-level subdirectory's metadata file is
missing or unparseable, `getSyncIdMaps` logs and rethrows, aborting the
whole scan — it does not skip the directory; the skip-and-continue
behavior belongs to the retry-path cache scan. When every subdirectory's
metadata is readable, the full map is returned. -/
theorem c1_amended_getSyncIdMaps_escalates (dirs : List DirEnt) :
    ((∃ d ∈ dirs, d.isDir = true ∧ d.metadata = none) →
      getSyncIdMaps dirs = Except.error ())
    ∧ ((∀ d ∈ dirs, d.isDir = true → d.metadata.isSome = true) →
        ∃ m, getSyncIdMaps dirs = Except.ok m) := by
  constructor
  · rintro ⟨d, hd, hdir, hmeta⟩
    have hsub : d ∈ listSubDirectories dirs := by
      rw [listSubDirectories, List.mem_filter]
      exact ⟨hd, by simp [hdir]⟩
    have hnone : readAllMetadata (listSubDirectories dirs) = none :=
      (readAllMetadata_none_iff _).mpr ⟨d, hsub, hmeta⟩
    unfold getSyncIdMaps
    rw [hnone]
  · intro hall
    rcases hr : readAllMetadata (listSubDirectories dirs) with _ | metas
    · exfalso
      obtain ⟨d, hd, hdm⟩ := (readAllMetadata_none_iff _).mp hr
      rw [listSubDirectories, List.mem_filter] at hd
      have := hall d hd.1 (by simpa using hd.2)
      rw [hdm] at this
      exact absurd this (by simp)
    · refine ⟨metas.foldl (fun m md =>
        recordSet m (md.groupId.getD "undefined") md.id) [], ?_⟩
      unfold getSyncIdMaps
      rw [hr]

/-- Witness for C1 (amended): the broken directory forces the error; a
fully readable listing yields a map. -/
theorem c1_witness :
    getSyncIdMaps [dirOther, dirBroken] = Except.error ()
    ∧ ∃ m, getSyncIdMaps [dirOther, dirReadable] = Except.ok m :=
  ⟨(c1_amended_getSyncIdMaps_escalates [dirOther, dirBroken]).1
      ⟨dirBroken, by decide, by decide, rfl⟩,
    (c1_amended_getSyncIdMaps_escalates [dirOther, dirReadable]).2 (by decide)⟩

end ActualAutoSync
